import Mathlib

/-!
# Verification of the ACMG-LLMs evaluation pipeline

Shallow embedding of the JSON-recovery and evaluation code of the
ACMG-LLMs repository (`03.Source-Code/`), together with proofs and
refutations of the specification's claims about it.

The embedding models Python strings as `List Char` / `String`, Python
integers as `Nat`/`Int`, Python floats as `ℚ` (exact rational
arithmetic), and JSON documents as an inductive `JVal` type in which
`JVal.null` plays the role of Python's `None` (as produced by
`json.loads`).  Character classes of the regexes involved are modelled
over their ASCII meaning, which covers every input considered here.
-/

namespace ACMG

/-! ## `FileProcessor.structural_repair`
    (`LLM_Response_Json_Extract.py` lines 35–104; byte-identical copies
    live in `Prompt2_Eval_FinalRating.py` and
    `Prompt2_FineGrain_Eval_InterInfo.py`). -/

/-- The escape characters the regex `\\([^"\\/bfnrtu])` of
`fix_illegal_escapes` treats as legal after a backslash. -/
def allowedEscape (c : Char) : Bool :=
  c = '"' || c = '\\' || c = '/' || c = 'b' || c = 'f' ||
  c = 'n' || c = 'r' || c = 't' || c = 'u'

/-- `FileProcessor.fix_illegal_escapes`: left-to-right, non-overlapping
replacement of every backslash followed by an illegal escape character
by a doubled backslash followed by that character (Python
`re.sub(r'\\([^"\\/bfnrtu])', r'\\\\\1', s)`).  After a match the scan
resumes after the matched pair; after a non-match it advances one
character. -/
def fix_illegal_escapes : List Char → List Char
  | [] => []
  | ['\\'] => ['\\']
  | '\\' :: c :: rest =>
      if allowedEscape c then '\\' :: fix_illegal_escapes (c :: rest)
      else '\\' :: '\\' :: c :: fix_illegal_escapes rest
  | c :: rest => c :: fix_illegal_escapes rest

/-- One step of the bracket/quote balancing state machine of
`structural_repair`'s first pass: toggle `in_string` on a quote, and
outside strings push `{`/`[`, pop a matching `}`/`]`, and ignore
mismatched closers. -/
def scanStep (st : List Char) (inStr : Bool) (c : Char) : List Char × Bool :=
  let inStr' := if c = '"' then !inStr else inStr
  if inStr' then (st, inStr')
  else if c = '{' || c = '[' then (c :: st, inStr')
  else if c = '}' then
    (match st with | '{' :: t => t | _ => st, inStr')
  else if c = ']' then
    (match st with | '[' :: t => t | _ => st, inStr')
  else (st, inStr')

/-- The bracket-balancing scan of `structural_repair` (state only): an
escape pair `\c` is skipped whole; every other character goes through
`scanStep`.  A lone trailing backslash is an ordinary character, as in
the source (`i + 1 < len(json_str)` fails there).  The stack is kept
top-first, so Python's `stack[-1]` is the list head. -/
def scanBal : List Char → List Char → Bool → List Char × Bool
  | [], st, inStr => (st, inStr)
  | '\\' :: _ :: rest, st, inStr => scanBal rest st inStr
  | c :: rest, st, inStr =>
      let s := scanStep st inStr c
      scanBal rest s.1 s.2

/-- First pass of `structural_repair`: the same scan, but also
producing the `result` list whose elements are either a two-character
escape pair or a single character, exactly as the Python `result` list
of strings is built. -/
def pass1 : List Char → List Char → Bool → List (List Char) × List Char × Bool
  | [], st, inStr => ([], st, inStr)
  | '\\' :: c :: rest, st, inStr =>
      let r := pass1 rest st inStr
      (['\\', c] :: r.1, r.2)
  | c :: rest, st, inStr =>
      let s := scanStep st inStr c
      let r := pass1 rest s.1 s.2
      ([c] :: r.1, r.2)

/-- `'}' if left == '{' else ']'` — the closing bracket appended for a
still-open bracket. -/
def closeOf (c : Char) : Char := if c = '{' then '}' else ']'

/-- Second pass of `structural_repair`: count quote elements whose
previous element is not a lone backslash (Python
`char == '"' and (not repaired or repaired[-1] != '\\')`). -/
def pass2Count : List (List Char) → Option (List Char) → Nat
  | [], _ => 0
  | e :: rest, prev =>
      (if e = ['"'] ∧ prev ≠ some ['\\'] then 1 else 0) + pass2Count rest (some e)

/-- The character class `[\]}\d"truefalsenull]` tested against the last
character in the third pass (ASCII digits). -/
def lastCharClass (c : Char) : Bool :=
  c = ']' || c = '}' || c.isDigit || c = '"' ||
  c = 't' || c = 'r' || c = 'u' || c = 'e' ||
  c = 'f' || c = 'a' || c = 'l' || c = 's' || c = 'n'

/-- ASCII reading of Python's `\s`. -/
def isPyWs (c : Char) : Bool :=
  c = ' ' || c = '\t' || c = '\n' || c = '\r' || c = '\x0b' || c = '\x0c'

/-- `re.search(r':\s*[{\[]', s)`: somewhere in `s` a colon is followed
by (possibly empty) whitespace and then an opening brace or bracket.
Because whitespace characters are never brackets this holds iff the
first non-whitespace character after some colon opens a brace/bracket. -/
def colonOpenAfter : List Char → Bool
  | [] => false
  | ':' :: rest =>
      (match rest.dropWhile isPyWs with
        | c :: _ => c = '{' || c = '['
        | [] => false) || colonOpenAfter rest
  | _ :: rest => colonOpenAfter rest

/-- The `result` list at the end of the first pass: the scanned
elements followed by one closing bracket per still-open bracket, closed
in reverse order of opening (Python `for left in reversed(stack)`,
where `reversed` enumerates the top of the stack first — the head of
our stack list). -/
def balancedElems (s : List Char) : List (List Char) :=
  (pass1 (fix_illegal_escapes s) [] false).1
    ++ (pass1 (fix_illegal_escapes s) [] false).2.1.map (fun c => [closeOf c])

/-- The `repaired` list after the second pass: one closing quote is
appended when the number of unescaped quotes is odd. -/
def repairedElems (s : List Char) : List (List Char) :=
  if pass2Count (balancedElems s) none % 2 ≠ 0 then balancedElems s ++ [['"']]
  else balancedElems s

/-- The trailing-truncation suffix appended by the third pass of
`structural_repair` (the characters added to `repaired_str` by the
final `if`; empty when the last character already looks like the end of
a JSON value). -/
def extrasOf (rs : List Char) : List Char :=
  if (match rs.getLast? with
      | none => true
      | some c => !(lastCharClass c)) then
    if colonOpenAfter rs then
      if rs.contains '{' then [']', '}'] else [']', ']']
    else
      if rs.contains '{' then ['}'] else [']']
  else []

/-- `FileProcessor.structural_repair` on character lists: escape fix,
bracket/quote balancing with appended closers, odd-quote completion,
and the trailing-truncation heuristic. -/
def repairChars (s : List Char) : List Char :=
  (repairedElems s).flatten ++ extrasOf (repairedElems s).flatten

/-- `FileProcessor.structural_repair` on strings. -/
def structural_repair (s : String) : String := ⟨repairChars s.data⟩

/-- `true` iff after consuming escape pairs left to right the list ends
in an unpaired backslash (the case where the first pass of
`structural_repair` emits a lone `\` element). -/
def dangling : List Char → Bool
  | [] => false
  | ['\\'] => true
  | '\\' :: _ :: rest => dangling rest
  | _ :: rest => dangling rest

/-- Quote elements among the first pass's `result` list. -/
def countQuote : List (List Char) → Nat
  | [] => 0
  | e :: rest => (if e = ['"'] then 1 else 0) + countQuote rest

/-! ## `FileProcessor.extract_json_from_content`, `remove_json_comments`
    and `load_json` (`LLM_Response_Json_Extract.py` lines 11–33,
    106–110 and 125–160; byte-identical copies live in
    `Prompt2_Eval_FinalRating.py`). -/

/-- Index of the leftmost occurrence of `pat` as a contiguous
subsequence. -/
def firstOccur (pat : List Char) : List Char → Option Nat
  | [] => if pat.isPrefixOf [] then some 0 else none
  | c :: rest =>
      if pat.isPrefixOf (c :: rest) then some 0
      else (firstOccur pat rest).map (· + 1)

/-- Index of the rightmost occurrence of the character `c`. -/
def lastOccurChar (c : Char) (s : List Char) : Option Nat :=
  match firstOccur [c] s.reverse with
  | some i => some (s.length - 1 - i)
  | none => none

/-- Python `str.strip()` (ASCII whitespace). -/
def pyStrip (s : List Char) : List Char :=
  ((s.dropWhile isPyWs).reverse.dropWhile isPyWs).reverse

/-- The fenced-block branch
`re.search(r'```json\s*(.*?)\s*```', content, re.DOTALL)` followed by
`.group(1).strip()`: the match starts at the leftmost ` ```json ` that
has a closing ` ``` ` somewhere after it, the lazy group ends at the
first such closer, and the surrounding `\s*`s plus the final `.strip()`
amount to stripping the span between the two fences. -/
def mdExtract (s : List Char) : Option (List Char) :=
  match firstOccur ("```json").data s with
  | none => none
  | some i =>
      match firstOccur ("```").data (s.drop (i + 7)) with
      | none => none
      | some j => some (pyStrip ((s.drop (i + 7)).take j))

/-- The bare-object branch `re.search(r'\{.*\}', content, re.DOTALL)`
followed by `.group(0).strip()`: greedy leftmost match — from the first
`{` to the last `}`, provided the first `{` precedes the last `}`. -/
def objExtract (s : List Char) : Option (List Char) :=
  match firstOccur ['{'] s, lastOccurChar '}' s with
  | some i, some j =>
      if i < j then some (pyStrip ((s.drop i).take (j + 1 - i))) else none
  | _, _ => none

/-- The bare-array branch `re.search(r'\[.*\]', content, re.DOTALL)`. -/
def arrExtract (s : List Char) : Option (List Char) :=
  match firstOccur ['['] s, lastOccurChar ']' s with
  | some i, some j =>
      if i < j then some (pyStrip ((s.drop i).take (j + 1 - i))) else none
  | _, _ => none

/-- `FileProcessor.extract_json_from_content`: fenced block, then bare
object, then bare array, then the whole content unchanged. -/
def extract_json_from_content (s : List Char) : List Char :=
  match mdExtract s with
  | some r => r
  | none =>
      match objExtract s with
      | some r => r
      | none =>
          match arrExtract s with
          | some r => r
          | none => s

/-- Length of the comment match of
`re.sub(r'(\s*//.*?\n)|(/\*.*?\*/)', …, re.DOTALL)` at the current
position, if any.  The first alternative requires `//` right after the
maximal whitespace run (whitespace is never `/`, so backtracking over
`\s*` cannot help) and a newline somewhere later (the lazy `.*?` ends
at the first one); the second requires `/*` here and `*/` later.  The
two alternatives can never start at the same position. -/
def commentMatchLen (s : List Char) : Option Nat :=
  if ("//").data.isPrefixOf (s.drop (s.takeWhile isPyWs).length) then
    match firstOccur ['\n'] (s.drop ((s.takeWhile isPyWs).length + 2)) with
    | some k => some ((s.takeWhile isPyWs).length + 2 + k + 1)
    | none => none
  else if ("/*").data.isPrefixOf s then
    match firstOccur ("*/").data (s.drop 2) with
    | some k => some (2 + k + 2)
    | none => none
  else none

/-- Left-to-right non-overlapping deletion of the comment matches.
`commentMatchLen` only ever returns lengths `≥ 3`, so dropping `n - 1`
of the tail is dropping `n` of the whole list.  Every step consumes at
least one character, so `fuel = length` never runs out; the fuel only
makes the recursion structural. -/
def removeCommentsAux : Nat → List Char → List Char
  | 0, s => s
  | fuel + 1, s =>
      match s with
      | [] => []
      | c :: rest =>
          match commentMatchLen (c :: rest) with
          | some n => removeCommentsAux fuel (rest.drop (n - 1))
          | none => c :: removeCommentsAux fuel rest

/-- `FileProcessor.remove_json_comments`. -/
def remove_json_comments (s : List Char) : List Char :=
  removeCommentsAux s.length s

/-- The parsing part of `FileProcessor.load_json` after the file has
been read.  `safe_json_parse` wraps the external `json.loads` /
`json5.loads` libraries, so the parser is a parameter: `parse r = none`
models all three tolerance levels failing.  Faithful to the source, the
last-resort fallback applies the parser to `cleaned_content` — the
comment-stripped **extracted** candidate — and the `ValueError` (here
`none`) is raised only when that also fails. -/
def load_json_parse {α : Type} (parse : List Char → Option α)
    (content : List Char) : Option α :=
  match parse (repairChars (remove_json_comments
      (extract_json_from_content content))) with
  | some v => some v
  | none => parse (remove_json_comments (extract_json_from_content content))

/-- Modelled from the spec (§4.6), for comparison with
`load_json_parse`: the spec says the fallback re-runs CommentStripper
plus the lenient parser directly on the *un-extracted* original text. -/
def load_json_parse_spec {α : Type} (parse : List Char → Option α)
    (content : List Char) : Option α :=
  match parse (repairChars (remove_json_comments
      (extract_json_from_content content))) with
  | some v => some v
  | none => parse (remove_json_comments content)

/-- A parser accepting exactly one text — stands for a strict JSON
parser on a file whose whole text is the only well-formed candidate. -/
def acceptOnly (target : List Char) : List Char → Option Unit :=
  fun s => if s = target then some () else none

/-- The encoding loop of `FileProcessor.load_json`: try
`utf-8-sig`, `utf-8`, `gb18030`, `latin-1` in order and keep the first
successful decode; `none` when every attempt raises.  Decoding is file
I/O plus external codecs, so it is a parameter. -/
def readContent (decode : String → Option (List Char)) : Option (List Char) :=
  match decode "utf-8-sig" with
  | some c => some c
  | none =>
      match decode "utf-8" with
      | some c => some c
      | none =>
          match decode "gb18030" with
          | some c => some c
          | none => decode "latin-1"

/-- The test guarding `raise ValueError("All encoding attempts
failed")` in `load_json`: Python's `if not content:` fires when
`content` is still `None` **or** when it is the empty string. -/
def load_json_readError (decode : String → Option (List Char)) : Bool :=
  match readContent decode with
  | none => true
  | some c => c.isEmpty

/-! ## `VariantAnalyzer` (`Prompt2_Eval_FinalRating.py` lines 151–369;
    `calculate_oddpath` has a byte-identical copy in
    `Prompt2_InterInfo_FinalRating.py` lines 74–117). -/

/-- JSON documents as produced by `json.loads`; `null` doubles as
Python's `None` (which is exactly what `json.loads` yields for JSON
`null`, and what `dict.get` yields for a missing key). -/
inductive JVal where
  | null
  | str (s : String)
  | num (n : Int)
  | bool (b : Bool)
  | arr (xs : List JVal)
  | obj (fields : List (String × JVal))

/-- Python exceptions that escape the analyzed functions uncaught. -/
inductive PyErr where
  | keyError
  | attributeError
  deriving DecidableEq

/-- Dictionary lookup (`d[key]` / `d.get(key)` on the field list). -/
def jGet : List (String × JVal) → String → Option JVal
  | [], _ => none
  | (k, v) :: rest, key => if k = key then some v else jGet rest key

mutual
/-- Python `repr` of a loaded JSON value (containers render as their
`repr`; only digit-shaped results matter to the callers). -/
def pyRepr : JVal → String
  | JVal.null => "None"
  | JVal.str s => "'" ++ s ++ "'"
  | JVal.num n => toString n
  | JVal.bool true => "True"
  | JVal.bool false => "False"
  | JVal.arr xs => "[" ++ pyReprList xs ++ "]"
  | JVal.obj fs => "\x7b" ++ pyReprFields fs ++ "\x7d"

def pyReprList : List JVal → String
  | [] => ""
  | [x] => pyRepr x
  | x :: y :: rest => pyRepr x ++ ", " ++ pyReprList (y :: rest)

def pyReprFields : List (String × JVal) → String
  | [] => ""
  | [(k, v)] => "'" ++ k ++ "': " ++ pyRepr v
  | (k, v) :: kv :: rest =>
      "'" ++ k ++ "': " ++ pyRepr v ++ ", " ++ pyReprFields (kv :: rest)
end

/-- Python `str()` of a loaded JSON value: identity on strings,
`repr` otherwise. -/
def pyStr : JVal → String
  | JVal.str s => s
  | v => pyRepr v

/-- Python `str.isdigit()` (ASCII digits). -/
def isDigitStr (s : String) : Bool :=
  !s.isEmpty && s.data.all Char.isDigit

/-- `int()` of an all-digit string. -/
def digitsToNat (s : String) : Nat :=
  s.data.foldl (fun acc c => acc * 10 + (c.toNat - 48)) 0

/-- `int(x) if str(x).isdigit() else 0`. -/
def countVal (v : JVal) : Nat :=
  if isDigitStr (pyStr v) then digitsToNat (pyStr v) else 0

/-- `x == "Yes"` for an arbitrary loaded value. -/
def isYes : JVal → Bool
  | JVal.str s => s = "Yes"
  | _ => false

/-- The `Counts` contribution of one validation-controls field:
`field.get("Counts", 0) if isinstance(field, dict) else 0`, run through
`countVal`. -/
def pCountOf (assay : List (String × JVal)) (key : String) : Nat :=
  match jGet assay key with
  | some (JVal.obj g) => countVal ((jGet g "Counts").getD (JVal.num 0))
  | _ => 0

/-- `isinstance(r, dict) and r.get("Conclusion") == target`. -/
def conclusionIs (target : String) : JVal → Bool
  | JVal.obj g =>
      match jGet g "Conclusion" with
      | some (JVal.str s) => s = target
      | _ => false
  | _ => false

/-- Indeterminate conclusions of one assay's `Readout description`
(only counted when the readout is a list). -/
def indetOf (assay : List (String × JVal)) : Nat :=
  match jGet assay "Readout description" with
  | some (JVal.arr rs) => rs.countP (conclusionIs "Indeterminate")
  | _ => 0

/-- The assay list as dictionaries; `none` when some element is not a
dictionary, in which case `assay.get(...)` raises an `AttributeError`
that none of the `except` clauses catches. -/
def assaysObjs : List JVal → Option (List (List (String × JVal)))
  | [] => some []
  | JVal.obj f :: rest => (assaysObjs rest).map (f :: ·)
  | _ :: _ => none

/-- The Bayesian-smoothed probability `p1 = p2 = (P+1)/(total+2)` of
`calculate_oddpath` (exact rational model of the float arithmetic). -/
def smoothedP (P B : Nat) : ℚ :=
  ((P : ℚ) + 1) / (((P + B : Nat) : ℚ) + 2)

/-- `odds_path = (p2*(1-p1)) / ((1-p2)*p1)` exactly as in the source,
where `p1` and `p2` are the same expression. -/
def odds_path_val (P B : Nat) : ℚ :=
  (smoothedP P B * (1 - smoothedP P B)) / ((1 - smoothedP P B) * smoothedP P B)

/-- The body of `calculate_oddpath` once `data["Experiment Method"]`
has been obtained.  Iterating a non-sequence raises `TypeError`, which
the function catches (`return False, 0.0, True`); iterating a string or
a dict hands non-dict elements to `assay.get`, whose `AttributeError`
is uncaught — except that empty ones complete zero iterations. -/
def calc_from_em : JVal → Except PyErr (Bool × ℚ × Bool)
  | JVal.arr assays =>
      match assaysObjs assays with
      | none => .error .attributeError
      | some objs =>
          if 0 < (objs.map (fun a => pCountOf a "Validation controls P/LP")).sum
              + (objs.map (fun a => pCountOf a "Validation controls B/LB")).sum then
            if (objs.map indetOf).sum = 0 then
              .ok (true, odds_path_val
                ((objs.map (fun a => pCountOf a "Validation controls P/LP")).sum)
                ((objs.map (fun a => pCountOf a "Validation controls B/LB")).sum), true)
            else if (objs.map indetOf).sum = 1 then
              .ok (true, odds_path_val
                ((objs.map (fun a => pCountOf a "Validation controls P/LP")).sum)
                ((objs.map (fun a => pCountOf a "Validation controls B/LB")).sum), false)
            else .ok (false, 0, true)
          else .ok (false, 0, true)
  | JVal.str s => if s.isEmpty then .ok (false, 0, true) else .error .attributeError
  | JVal.obj [] => .ok (false, 0, true)
  | JVal.obj (_ :: _) => .error .attributeError
  | _ => .ok (false, 0, true)

/-- `VariantAnalyzer.calculate_oddpath`.  A missing
`"Experiment Method"` key raises `KeyError`, which the `except` clauses
(`ZeroDivisionError`, `(ValueError, TypeError)`) do not catch; indexing
a non-dict raises `TypeError`, which they do. -/
def calculate_oddpath (data : JVal) : Except PyErr (Bool × ℚ × Bool) :=
  match data with
  | JVal.obj fields =>
      match jGet fields "Experiment Method" with
      | none => .error .keyError
      | some em => calc_from_em em
  | _ => .ok (false, 0, true)

/-- The per-record approved check of
`evaluate_assay_validity_approved`: a missing or `None` field means
`continue`; a dict is unwrapped with default `"No"`; anything else is
compared with `"Yes"` directly. -/
def approvedYes (assay : List (String × JVal)) : Bool :=
  match jGet assay "Approved assay" with
  | none => false
  | some JVal.null => false
  | some (JVal.obj g) => isYes ((jGet g "Approved assay").getD (JVal.str "No"))
  | some v => isYes v

/-- The loop of `evaluate_assay_validity_approved`: `True` at the first
approved record, `False` after the loop, uncaught `AttributeError` on a
non-dict record. -/
def goApproved : List JVal → Except PyErr Bool
  | [] => .ok false
  | JVal.obj a :: rest => if approvedYes a then .ok true else goApproved rest
  | _ :: _ => .error .attributeError

/-- `VariantAnalyzer.evaluate_assay_validity_approved`.  Uses
`data.get("Experiment Method", [])`, so a missing key just yields an
empty loop; `data.get` on a non-dict raises `AttributeError`
(uncaught). -/
def evaluate_assay_validity_approved (data : JVal) : Except PyErr Bool :=
  match data with
  | JVal.obj fields =>
      match (jGet fields "Experiment Method").getD (JVal.arr []) with
      | JVal.arr assays => goApproved assays
      | JVal.str s => if s.isEmpty then .ok false else .error .attributeError
      | JVal.obj [] => .ok false
      | JVal.obj (_ :: _) => .error .attributeError
      | _ => .ok false
  | _ => .error .attributeError

/-- The shared nested-field pattern of the control/replicate/known-
variant checks: `None → False`, dict → `get(key) == "Yes"`, otherwise
`value == "Yes"`. -/
def yesOfNested (assay : List (String × JVal)) (key : String) : Bool :=
  match jGet assay key with
  | none => false
  | some JVal.null => false
  | some (JVal.obj g) =>
      match jGet g key with
      | some v => isYes v
      | none => false
  | some v => isYes v

/-- One record passes the controls-and-replicates check when it has a
basic (positive or negative) control and a (biological or technical)
replicate. -/
def controlOk (a : List (String × JVal)) : Bool :=
  (yesOfNested a "Basic positive control" || yesOfNested a "Basic negative control")
    && (yesOfNested a "Biological replicates" || yesOfNested a "Technical replicates")

def goControl : List JVal → Except PyErr Bool
  | [] => .ok false
  | JVal.obj a :: rest => if controlOk a then .ok true else goControl rest
  | _ :: _ => .error .attributeError

/-- `VariantAnalyzer.evaluate_assay_validity_control`.  Uses
`data["Experiment Method"]` with `except (KeyError, TypeError)`
returning `False`, so a missing key or non-subscriptable data yields
`False`. -/
def evaluate_assay_validity_control (data : JVal) : Except PyErr Bool :=
  match data with
  | JVal.obj fields =>
      match jGet fields "Experiment Method" with
      | none => .ok false
      | some (JVal.arr assays) => goControl assays
      | some (JVal.str s) => if s.isEmpty then .ok false else .error .attributeError
      | some (JVal.obj []) => .ok false
      | some (JVal.obj (_ :: _)) => .error .attributeError
      | some _ => .ok false
  | _ => .ok false

/-- One record passes the known-variant check when either validation-
controls field indicates `"Yes"`. -/
def knownOk (a : List (String × JVal)) : Bool :=
  yesOfNested a "Validation controls P/LP" || yesOfNested a "Validation controls B/LB"

def goKnown : List JVal → Except PyErr Bool
  | [] => .ok false
  | JVal.obj a :: rest => if knownOk a then .ok true else goKnown rest
  | _ :: _ => .error .attributeError

/-- `VariantAnalyzer.evaluate_assay_contains_known_variants` (same
indexing and exception structure as the control check). -/
def evaluate_assay_contains_known_variants (data : JVal) : Except PyErr Bool :=
  match data with
  | JVal.obj fields =>
      match jGet fields "Experiment Method" with
      | none => .ok false
      | some (JVal.arr assays) => goKnown assays
      | some (JVal.str s) => if s.isEmpty then .ok false else .error .attributeError
      | some (JVal.obj []) => .ok false
      | some (JVal.obj (_ :: _)) => .error .attributeError
      | some _ => .ok false
  | _ => .ok false

/-- Abnormal/Normal conclusion tallies of one record's list-shaped
readout (`if not readout: continue` only skips falsy readouts, whose
tallies are zero anyway; strings are skipped). -/
def countsOf (a : List (String × JVal)) : Nat × Nat :=
  match jGet a "Readout description" with
  | some (JVal.arr rs) =>
      (rs.countP (conclusionIs "Abnormal"), rs.countP (conclusionIs "Normal"))
  | _ => (0, 0)

def goCount : List JVal → Except PyErr (Nat × Nat)
  | [] => .ok (0, 0)
  | JVal.obj a :: rest =>
      match goCount rest with
      | .ok (p, b) => .ok (p + (countsOf a).1, b + (countsOf a).2)
      | .error e => .error e
  | _ :: _ => .error .attributeError

/-- `VariantAnalyzer.count_pathogenic_benign_variants`. -/
def count_pathogenic_benign_variants (data : JVal) : Except PyErr (Nat × Nat) :=
  match data with
  | JVal.obj fields =>
      match jGet fields "Experiment Method" with
      | none => .ok (0, 0)
      | some (JVal.arr assays) => goCount assays
      | some (JVal.str s) => if s.isEmpty then .ok (0, 0) else .error .attributeError
      | some (JVal.obj []) => .ok (0, 0)
      | some (JVal.obj (_ :: _)) => .error .attributeError
      | some _ => .ok (0, 0)
  | _ => .ok (0, 0)

/-- `VariantAnalyzer.determine_strength_by_oddpath` (the float
thresholds read as exact rationals). -/
def determine_strength_by_oddpath (odds : ℚ) : String :=
  if odds < 0.0029 ∨ odds > 350 then "Very Strong"
  else if (0.0029 ≤ odds ∧ odds < 0.053) ∨ (18.7 < odds ∧ odds ≤ 350) then "Strong"
  else if (0.053 ≤ odds ∧ odds < 0.23) ∨ (4.3 < odds ∧ odds ≤ 18.7) then "Moderate"
  else "Supporting"

/-- `VariantAnalyzer.determine_evidence_strength`: the four-level
cascade. -/
def determine_evidence_strength (data : JVal) : Except PyErr String :=
  match evaluate_assay_validity_approved data with
  | .error e => .error e
  | .ok false => .ok "No PS3/BS3"
  | .ok true =>
      match evaluate_assay_validity_control data with
      | .error e => .error e
      | .ok false => .ok "No PS3/BS3"
      | .ok true =>
          match evaluate_assay_contains_known_variants data with
          | .error e => .error e
          | .ok false => .ok "Supporting"
          | .ok true =>
              match calculate_oddpath data with
              | .error e => .error e
              | .ok (false, _, _) =>
                  match count_pathogenic_benign_variants data with
                  | .error e => .error e
                  | .ok (p, b) =>
                      if 10 < p + b then .ok "Moderate" else .ok "Supporting"
              | .ok (true, odds, _) => .ok (determine_strength_by_oddpath odds)

/-! ## `Step1_DataComparator`
    (`Prompt2_FineGrain_Eval_InterInfo.py` lines 13–676). -/

/-- `Config.EXACT_MATCH_FIELDS`. -/
def EXACT_MATCH_FIELDS : List String :=
  ["Variants Include.Gene",
   "Variants Include.variants.HGVS",
   "Variants Include.variants.cDNA Change.transcript",
   "Variants Include.variants.cDNA Change.ref",
   "Variants Include.variants.cDNA Change.alt",
   "Variants Include.variants.cDNA Change.position",
   "Variants Include.variants.Protein Change.ref",
   "Variants Include.variants.Protein Change.alt",
   "Variants Include.variants.Protein Change.position",
   "Described Disease.Described Disease",
   "Described Disease.MONDO",
   "Experiment Method.Assay Method",
   "Experiment Method.Material used.Material Source",
   "Experiment Method.Material used.Material Name",
   "Experiment Method.Readout type",
   "Experiment Method.Readout description.Conclusion",
   "Experiment Method.Readout description.Molecular Effect",
   "Experiment Method.Biological replicates.Biological replicates",
   "Experiment Method.Technical replicates.Technical replicates",
   "Experiment Method.Basic positive control.Basic positive control",
   "Experiment Method.Basic negative control.Basic negative control",
   "Experiment Method.Approved assay.Approved assay"]

/-- `Config.SKIP_FIELDS`. -/
def SKIP_FIELDS : List String :=
  ["Variants Include.variants.Description in input context",
   "Experiment Method.Material used.Description",
   "Experiment Method.Readout description.Result Description",
   "Experiment Method.Biological replicates.Description",
   "Experiment Method.Technical replicates.Description",
   "Experiment Method.Basic positive control.Description",
   "Experiment Method.Basic negative control.Description",
   "Experiment Method.Validation controls P/LP",
   "Experiment Method.Validation controls B/LB",
   "Experiment Method.Statistical analysis method",
   "Experiment Method.Threshold for normal readout",
   "Experiment Method.Threshold for abnormal readout"]

/-- `Config.BOOLEAN_FIELDS`. -/
def BOOLEAN_FIELDS : List String :=
  ["Experiment Method.Biological replicates.Biological replicates",
   "Experiment Method.Technical replicates.Technical replicates",
   "Experiment Method.Basic positive control.Basic positive control",
   "Experiment Method.Basic negative control.Basic negative control",
   "Experiment Method.Approved assay.Approved assay"]

/-- `Config.FIELD_GROUPS` in insertion order (a Python dict preserves
it, and `group_fields` relies on it: the members of each group list in
ref, alt, position order). -/
def FIELD_GROUPS : List (String × String) :=
  [("Variants Include.variants.cDNA Change.ref", "cDNA Change"),
   ("Variants Include.variants.cDNA Change.alt", "cDNA Change"),
   ("Variants Include.variants.cDNA Change.position", "cDNA Change"),
   ("Variants Include.variants.Protein Change.ref", "Protein Change"),
   ("Variants Include.variants.Protein Change.alt", "Protein Change"),
   ("Variants Include.variants.Protein Change.position", "Protein Change")]

/-- `Config.OMISSION_FIELDS` (a Python set; iteration order fixed
arbitrarily here — only membership and order-independent sums depend on
it). -/
def OMISSION_FIELDS : List String :=
  ["Variants Include.variants.Protein Change.ref",
   "Variants Include.variants.Protein Change.alt",
   "Variants Include.variants.Protein Change.position",
   "Experiment Method.Assay Method"]

/-- `Config.AMINO_ACID_MAP` in insertion order (the normalization loop
iterates the dict in this order and takes the first key contained in
the value). -/
def AMINO_ACID_MAP : List (String × String) :=
  [("ala", "A"), ("alanine", "A"), ("A", "A"),
   ("arg", "R"), ("arginine", "R"), ("R", "R"),
   ("asn", "N"), ("asparagine", "N"), ("N", "N"),
   ("asp", "D"), ("aspartic acid", "D"), ("D", "D"),
   ("cys", "C"), ("cysteine", "C"), ("C", "C"),
   ("gln", "Q"), ("glutamine", "Q"), ("Q", "Q"),
   ("glu", "E"), ("glutamic acid", "E"), ("E", "E"),
   ("gly", "G"), ("glycine", "G"), ("G", "G"),
   ("his", "H"), ("histidine", "H"), ("H", "H"),
   ("ile", "I"), ("isoleucine", "I"), ("I", "I"),
   ("leu", "L"), ("leucine", "L"), ("L", "L"),
   ("lys", "K"), ("lysine", "K"), ("K", "K"),
   ("met", "M"), ("methionine", "M"), ("M", "M"),
   ("phe", "F"), ("phenylalanine", "F"), ("F", "F"),
   ("pro", "P"), ("proline", "P"), ("P", "P"),
   ("ser", "S"), ("serine", "S"), ("S", "S"),
   ("thr", "T"), ("threonine", "T"), ("T", "T"),
   ("trp", "W"), ("tryptophan", "W"), ("W", "W"),
   ("tyr", "Y"), ("tyrosine", "Y"), ("Y", "Y"),
   ("val", "V"), ("valine", "V"), ("V", "V")]

/-- `Config.NUCLEIC_ACID_MAP` (looked up by exact key). -/
def NUCLEIC_ACID_MAP : List (String × String) :=
  [("adenine", "A"), ("A", "A"),
   ("thymine", "T"), ("T", "T"),
   ("cytosine", "C"), ("C", "C"),
   ("guanine", "G"), ("G", "G"),
   ("uracil", "U"), ("U", "U")]

/-- First-match association lookup (Python dict lookup; keys are
unique in every table used). -/
def assocStr : List (String × String) → String → Option String
  | [], _ => none
  | (k, v) :: rest, key => if k = key then some v else assocStr rest key

/-- One `field_metrics` accumulator (the `matched_std_values` set of
the source is initialized but never read or written elsewhere, so it is
omitted). -/
structure FieldMetrics where
  std_count : Nat := 0
  model_count : Nat := 0
  correct : Nat := 0
  false_assert : Nat := 0
  std_yes : Nat := 0
  std_no : Nat := 0
  correct_yes : Nat := 0
  correct_no : Nat := 0
  field_omissions : Nat := 0
  correct_details : List String := []
  std_values : List String := []
  model_values : List String := []
  deriving DecidableEq

/-- `self.field_metrics`: an insertion-ordered mapping from dotted
field path to its accumulator, as a `defaultdict` is. -/
abbrev FM := List (String × FieldMetrics)

def fmFind : FM → String → Option FieldMetrics
  | [], _ => none
  | (k, m) :: rest, p => if k = p then some m else fmFind rest p

/-- `self.field_metrics[p]` followed by mutation `f` of the entry: a
`defaultdict` access creates a default entry (at the end, preserving
insertion order) when the key is missing. -/
def fmSet : FM → String → (FieldMetrics → FieldMetrics) → FM
  | [], p, f => [(p, f {})]
  | (k, m) :: rest, p, f =>
      if k = p then (k, f m) :: rest else (k, m) :: fmSet rest p f

/-- Python truthiness of a loaded JSON value. -/
def pyTruthy : JVal → Bool
  | JVal.null => false
  | JVal.str s => !s.data.isEmpty
  | JVal.num n => n ≠ 0
  | JVal.bool b => b
  | JVal.arr xs => !xs.isEmpty
  | JVal.obj fs => !fs.isEmpty

/-- Python `.strip()` on a string value (ASCII whitespace). -/
def pyStripStr (s : String) : String := ⟨pyStrip s.data⟩

/-- `.upper()` (ASCII). -/
def pyUpperStr (s : String) : String := ⟨s.data.map Char.toUpper⟩

/-- `.lower()` (ASCII). -/
def pyLowerStr (s : String) : String := ⟨s.data.map Char.toLower⟩

/-- `re.sub(r'[^a-zA-Z0-9]', '', s).lower()`. -/
def cleanValue (s : String) : String :=
  ⟨(s.data.filter fun c => c.isAlpha || c.isDigit).map Char.toLower⟩

/-- First occurrence test: `a in b` for Python strings. -/
def strContains (a b : String) : Bool := (firstOccur a.data b.data).isSome

/-- `re.match(r'^N\.?D\.?$', s, IGNORECASE)` on the already upper-cased
stripped value: exactly the four spellings. -/
def ndMatch (s : String) : Bool :=
  s = "ND" || s = "N.D" || s = "ND." || s = "N.D."

/-- `str(model_val).strip().upper() if model_val is not None else ""` —
the string the N.D. recognizer inspects. -/
def modelStrOf : JVal → String
  | JVal.null => ""
  | v => pyUpperStr (pyStripStr (pyStr v))

/-- The candidate's normalized value in the exact-match branch:
`re.sub(r'[^a-zA-Z0-9]', '', str(model_val)).lower() if model_val
else ''`. -/
def modelCleanOf (modelVal : JVal) : String :=
  if pyTruthy modelVal then cleanValue (pyStr modelVal) else ""

/-- The continuous-inclusion matching rule of the exact-match branch
for non-boolean, non-grouped fields:
`any(std in model_clean or model_clean in std for std in std_values)`. -/
def exactContainMatch (stdValues : List String) (mc : String) : Bool :=
  stdValues.any fun std => strContains std mc || strContains mc std

/-- `Step1_DataComparator._process_boolean` as a transformation of the
field's accumulator. -/
def processBooleanM (stdVal modelVal : JVal) (is_std : Bool)
    (m : FieldMetrics) : FieldMetrics :=
  if is_std then
    let sv := pyLowerStr (pyStr stdVal)
    let m1 := { m with std_count := m.std_count + 1 }
    if sv = "yes" then { m1 with std_yes := m1.std_yes + 1 }
    else if sv = "no" then { m1 with std_no := m1.std_no + 1 }
    else m1
  else
    let sv := pyLowerStr (pyStr stdVal)
    let mv := if pyTruthy modelVal then pyLowerStr (pyStr modelVal) else ""
    let m1 := { m with model_count := m.model_count + 1 }
    if sv = "yes" then
      if mv = "yes" then
        { m1 with correct_yes := m1.correct_yes + 1, correct := m1.correct + 1 }
      else { m1 with false_assert := m1.false_assert + 1 }
    else if sv = "no" then
      if mv = "no" then
        { m1 with correct_no := m1.correct_no + 1, correct := m1.correct + 1 }
      else { m1 with false_assert := m1.false_assert + 1 }
    else m1

/-- `Step1_DataComparator._process_leaf_node` as a transformation of
the one accumulator it touches: N.D. interception (model side), then
the skip-but-record, boolean and exact-match branches; any other field
is left as created. -/
def leafChange (stdVal modelVal : JVal) (is_std : Bool) (fieldPath : String)
    (m : FieldMetrics) : FieldMetrics :=
  if !is_std && ndMatch (modelStrOf modelVal) then
    { m with
      model_values := m.model_values ++ ["N.D."]
      model_count := m.model_count + 1 }
  else if fieldPath ∈ SKIP_FIELDS then
    if is_std then
      { m with
        std_values := m.std_values ++ [pyStr stdVal]
        std_count := m.std_count + 1 }
    else
      let model_str := match modelVal with
        | JVal.null => ""
        | v => pyStr v
      let m1 := { m with
        model_values := m.model_values ++ [model_str]
        model_count := m.model_count + 1 }
      if pyLowerStr (pyStr stdVal) = pyLowerStr model_str then
        { m1 with
          correct := m1.correct + 1
          correct_details := m1.correct_details
            ++ ["Standard: " ++ pyStr stdVal ++ ", Output: " ++ pyStr modelVal] }
      else m1
  else if fieldPath ∈ BOOLEAN_FIELDS then
    processBooleanM stdVal modelVal is_std m
  else if fieldPath ∈ EXACT_MATCH_FIELDS then
    if is_std then
      { m with
        std_values := m.std_values ++ [cleanValue (pyStr stdVal)]
        std_count := m.std_count + 1 }
    else
      let model_clean := modelCleanOf modelVal
      let m1 := { m with
        model_values := m.model_values ++ [model_clean]
        model_count := m.model_count + 1 }
      let is_boolean := fieldPath ∈ BOOLEAN_FIELDS
      let is_group := (assocStr FIELD_GROUPS fieldPath).isSome
      let matched :=
        if is_boolean || is_group then m1.std_values.contains model_clean
        else exactContainMatch m1.std_values model_clean
      if matched then { m1 with correct := m1.correct + 1 }
      else { m1 with false_assert := m1.false_assert + 1 }
  else m

/-- `_process_leaf_node` on the metrics map: the initial
`metrics = self.field_metrics[field_path]` creates the entry even when
no branch touches it. -/
def process_leaf_node (stdVal modelVal : JVal) (is_std : Bool)
    (path : List String) (fm : FM) : FM :=
  fmSet fm (String.intercalate "." path)
    (leafChange stdVal modelVal is_std (String.intercalate "." path))

/-- `compare_node.get(key, None) if isinstance(compare_node, dict)
else None`. -/
def cmpChild (cmp : JVal) (k : String) : JVal :=
  match cmp with
  | JVal.obj g => (jGet g k).getD JVal.null
  | _ => JVal.null

/-- `compare_node[idx] if isinstance(compare_node, list) and idx <
len(compare_node) else None`. -/
def cmpItem (cmp : JVal) (idx : Nat) : JVal :=
  match cmp with
  | JVal.arr ys => ys.getD idx JVal.null
  | _ => JVal.null

mutual
/-- `Step1_DataComparator._traverse_node`: dictionaries extend the
path, list elements keep it (and are aligned positionally with the
compare node), scalars and `null` are leaves.  On the standard walk the
leaf call is `(current, compare)`, on the model walk `(compare,
current)`. -/
def traverseNode (cur cmp : JVal) (is_std : Bool) (path : List String)
    (fm : FM) : FM :=
  match cur with
  | JVal.obj fields => traverseFields fields cmp is_std path fm
  | JVal.arr xs => traverseList xs cmp is_std path 0 fm
  | _ =>
      if is_std then process_leaf_node cur cmp true path fm
      else process_leaf_node cmp cur false path fm

def traverseFields (fields : List (String × JVal)) (cmp : JVal)
    (is_std : Bool) (path : List String) (fm : FM) : FM :=
  match fields with
  | [] => fm
  | (k, v) :: rest =>
      traverseFields rest cmp is_std path
        (traverseNode v (cmpChild cmp k) is_std (path ++ [k]) fm)

def traverseList (xs : List JVal) (cmp : JVal) (is_std : Bool)
    (path : List String) (idx : Nat) (fm : FM) : FM :=
  match xs with
  | [] => fm
  | x :: rest =>
      traverseList rest cmp is_std path (idx + 1)
        (traverseNode x (cmpItem cmp idx) is_std path fm)
end

/-- `_normalize_position`: concatenation of all digit runs. -/
def normalize_position (value : String) : String :=
  ⟨value.data.filter Char.isDigit⟩

/-- `_normalize_nucleic_acid` with the caller's `is_dna=True`: strip
non-letters, upper-case, exact lookup, then drop `U`. -/
def normalize_nucleic_acid (value : String) : String :=
  let v : String := ⟨(value.data.filter Char.isAlpha).map Char.toUpper⟩
  let r := (assocStr NUCLEIC_ACID_MAP v).getD ""
  ⟨r.data.filter (· ≠ 'U')⟩

/-- The `for key in Config.AMINO_ACID_MAP` containment loop. -/
def aaLoopFind : List (String × String) → String → Option String
  | [], _ => none
  | (k, v) :: rest, s => if strContains k s then some v else aaLoopFind rest s

/-- `_normalize_amino_acid`: lower-cased and stripped; deletions map to
`""`; a single-character parenthesized code wins next; then the first
map key contained in the value; finally the first character
upper-cased. -/
def normalize_amino_acid (value : String) : String :=
  let v := pyLowerStr (pyStripStr value)
  if strContains "deletion" v then ""
  else
    match
      (if v.data.contains '(' && v.data.contains ')' then
        let afterPar := match lastOccurChar '(' v.data with
          | some i => v.data.drop (i + 1)
          | none => v.data
        let inner := match firstOccur [')'] afterPar with
          | some j => afterPar.take j
          | none => afterPar
        let bp := pyStrip inner
        if bp.length = 1 then some (String.mk (bp.map Char.toUpper)) else none
      else none) with
    | some r => r
    | none =>
        match aaLoopFind AMINO_ACID_MAP v with
        | some r => r
        | none =>
            match v.data with
            | [] => ""
            | c :: _ => String.mk [c.toUpper]

/-- `_normalize_component`: reads the accumulated value at `index`
(missing positions are `""`), keeps `N.D.` markers, and dispatches on
the group and on `ref`/`alt` occurring in the field path.  The
source's `try/except` fallback is unreachable: none of the normalizers
raises. -/
def normalize_component (fm : FM) (fieldPath : String) (index : Nat)
    (groupName : String) (isModel : Bool) : String :=
  let values := if isModel then ((fmFind fm fieldPath).getD {}).model_values
    else ((fmFind fm fieldPath).getD {}).std_values
  let value := values.getD index ""
  if pyUpperStr (pyStripStr value) = "N.D." then "N.D."
  else if strContains "Protein" groupName then
    if strContains "ref" fieldPath || strContains "alt" fieldPath then
      normalize_amino_acid value
    else normalize_position value
  else if strContains "ref" fieldPath || strContains "alt" fieldPath then
    normalize_nucleic_acid value
  else normalize_position value

/-- The members of a field group, in the table's (ref, alt, position)
order. -/
def groupFieldsOf (g : String) : List String :=
  (FIELD_GROUPS.filter fun kv => kv.2 = g).map (·.1)

/-- The standard side's `valid_std` tuple list: indices up to the
longest of the three accumulated lists, tuples whose every component is
`N.D.` or empty filtered out. -/
def validStdTuples (fm : FM) (g : String) : List (String × String × String) :=
  let refF := (groupFieldsOf g).getD 0 ""
  let altF := (groupFieldsOf g).getD 1 ""
  let posF := (groupFieldsOf g).getD 2 ""
  let maxLen := max (max ((fmFind fm refF).getD {}).std_values.length
      ((fmFind fm altF).getD {}).std_values.length)
    ((fmFind fm posF).getD {}).std_values.length
  (List.range maxLen).filterMap fun i =>
    let r := normalize_component fm refF i g false
    let a := normalize_component fm altF i g false
    let p := normalize_component fm posF i g false
    if (r = "N.D." ∨ r = "") ∧ (a = "N.D." ∨ a = "") ∧ (p = "N.D." ∨ p = "") then
      none
    else some (r, a, p)

/-- The model side's `valid_model` tuple list: every index is kept (no
validity filter), and a normalized Protein-Change `alt` containing
`deletion` becomes the `[DEL]` marker. -/
def validModelTuples (fm : FM) (g : String) : List (String × String × String) :=
  let refF := (groupFieldsOf g).getD 0 ""
  let altF := (groupFieldsOf g).getD 1 ""
  let posF := (groupFieldsOf g).getD 2 ""
  let maxLen := max (max ((fmFind fm refF).getD {}).model_values.length
      ((fmFind fm altF).getD {}).model_values.length)
    ((fmFind fm posF).getD {}).model_values.length
  (List.range maxLen).map fun i =>
    let r := normalize_component fm refF i g true
    let a0 := normalize_component fm altF i g true
    let a := if g = "Protein Change" && strContains "deletion" (pyLowerStr a0) then
        "[DEL]" else a0
    let p := normalize_component fm posF i g true
    (r, a, p)

/-- `correct`: candidate tuples of the model set (Python `set`, hence
deduplicated) found anywhere in the standard set. -/
def groupCorrect (fm : FM) (g : String) : Nat :=
  (validModelTuples fm g).dedup.countP fun t =>
    decide (t ∈ validStdTuples fm g)

/-- `false_assert`: model-set tuples outside the standard set with no
empty component. -/
def groupFalseAssert (fm : FM) (g : String) : Nat :=
  (validModelTuples fm g).dedup.countP fun t =>
    decide (t ∉ validStdTuples fm g ∧ t.1 ≠ "" ∧ t.2.1 ≠ "" ∧ t.2.2 ≠ "")

/-- `Step1_DataComparator._process_field_groups`: the group statistics
are computed from the accumulated lists and then written into every
member field's accumulator.  (The debug printing of the source is
dropped; the entries the Python reads create mid-loop all receive their
write in this final loop anyway, so the resulting map has the same
keys.) -/
def process_field_groups (fm : FM) : FM :=
  FIELD_GROUPS.foldl (fun acc kv =>
    fmSet acc kv.1 fun m =>
      { m with
        std_count := (validStdTuples fm kv.2).length
        model_count := (validModelTuples fm kv.2).length
        correct := groupCorrect fm kv.2
        false_assert := groupFalseAssert fm kv.2 }) fm

/-- The grand totals of `_calculate_metrics`. -/
structure Totals where
  std : Nat := 0
  model : Nat := 0
  correct : Nat := 0
  falseA : Nat := 0
  omis : Nat := 0
  yes : Nat := 0
  cyes : Nat := 0
  no : Nat := 0
  cno : Nat := 0

/-- One iteration of the first pass of `_calculate_metrics`: group
fields are accumulated once per group through the group's first member
and then skipped (`continue`); other fields contribute their counts,
boolean sub-tallies, and — for the designated omission fields — the
`max(0, std - correct - #N.D.)` omission estimate (written with the
source's integer arithmetic). -/
def calcStep (fm : FM) (acc : Totals × List String)
    (entry : String × FieldMetrics) : Totals × List String :=
  let t := acc.1
  let pg := acc.2
  let p := entry.1
  let m := entry.2
  match assocStr FIELD_GROUPS p with
  | some g =>
      if g ∈ pg then (t, pg)
      else
        let mm := (fmFind fm ((groupFieldsOf g).getD 0 "")).getD {}
        ({ t with
            std := t.std + mm.std_count
            model := t.model + mm.model_count
            correct := t.correct + mm.correct
            falseA := t.falseA + mm.false_assert }, pg ++ [g])
  | none =>
      let t1 := if p ∈ FIELD_GROUPS.map (·.2) then t
        else
          { t with
            std := t.std + m.std_count
            model := t.model + m.model_count
            correct := t.correct + m.correct
            falseA := t.falseA + m.false_assert
            omis := t.omis + (m.std_count - m.model_count) }
      let t2 := if p ∈ BOOLEAN_FIELDS then
          { t1 with
            yes := t1.yes + m.std_yes
            cyes := t1.cyes + m.correct_yes
            no := t1.no + m.std_no
            cno := t1.cno + m.correct_no }
        else t1
      let t3 := if p ∈ OMISSION_FIELDS then
          { t2 with omis := t2.omis +
              (max 0 ((m.std_count : Int) - (m.correct : Int)
                - ((m.model_count : Int)
                  - ((m.model_count : Int)
                    - (m.model_values.count "N.D." : Int))))).toNat }
        else t2
      (t3, pg)

/-- The `ComparisonResult` snapshot `_calculate_metrics` returns
(`qa_time` and `field_details` are always `None`/`[]` in a comparison
run and are omitted). -/
structure CompareResult where
  std_total : Nat
  model_total : Nat
  correct_total : Nat
  false_assert_total : Nat
  field_omissions_total : Nat
  std_yes_total : Nat
  correct_yes_total : Nat
  std_no_total : Nat
  correct_no_total : Nat
  omission_fields_std_total : Nat
  field_metrics : FM

/-- `Step1_DataComparator._calculate_metrics`: the first pass folds
over the map's entries in insertion order; the final
`omission_fields_std_total` generator expression accesses
`field_metrics[f]` for every omission field, creating any missing entry
(with `std_count = 0`). -/
def calculate_metrics (fm : FM) : CompareResult :=
  let t := (fm.foldl (calcStep fm) ({}, [])).1
  let fm2 := OMISSION_FIELDS.foldl (fun acc f => fmSet acc f id) fm
  { std_total := t.std
    model_total := t.model
    correct_total := t.correct
    false_assert_total := t.falseA
    field_omissions_total := t.omis
    std_yes_total := t.yes
    correct_yes_total := t.cyes
    std_no_total := t.no
    correct_no_total := t.cno
    omission_fields_std_total :=
      (OMISSION_FIELDS.map fun f => ((fmFind fm2 f).getD {}).std_count).sum
    field_metrics := fm2 }

/-- `Step1_DataComparator.compare`: standard-side walk, model-side
walk, grouped-field post-processing, metric aggregation. -/
def compare (std_json model_json : JVal) : CompareResult :=
  calculate_metrics (process_field_groups
    (traverseNode model_json std_json false []
      (traverseNode std_json model_json true [] [])))

/-- The keys of the metrics map, in insertion order. -/
def fmKeys (fm : FM) : List String := fm.map Prod.fst

/-- A metrics-map state whose Protein-Change lists hold the same two
variants in different order and spelling (test fixture). -/
def proteinGroupExample : FM :=
  [("Variants Include.variants.Protein Change.ref",
    { std_values := ["Leu", "Val"], model_values := ["valine", "leucine"] }),
   ("Variants Include.variants.Protein Change.alt",
    { std_values := ["Pro", "Met"], model_values := ["Met", "Pro"] }),
   ("Variants Include.variants.Protein Change.position",
    { std_values := ["12", "34"], model_values := ["34", "12"] })]

end ACMG

namespace ACMG

/-! ### Small-step equations for the scan functions -/

theorem twoStepInduction {P : List Char → Prop} (h0 : P []) (h1 : ∀ c, P [c])
    (h2 : ∀ c c2 rest, P (c2 :: rest) → P rest → P (c :: c2 :: rest)) :
    ∀ l, P l
  | [] => h0
  | [c] => h1 c
  | c :: c2 :: rest =>
      h2 c c2 rest (twoStepInduction h0 h1 h2 (c2 :: rest))
        (twoStepInduction h0 h1 h2 rest)

theorem scanBal_nil (st : List Char) (i : Bool) : scanBal [] st i = (st, i) := rfl

theorem scanBal_pair (c : Char) (rest st : List Char) (i : Bool) :
    scanBal ('\\' :: c :: rest) st i = scanBal rest st i := rfl

theorem scanBal_one (c : Char) (st : List Char) (i : Bool) :
    scanBal [c] st i = scanStep st i c := by
  rcases eq_or_ne c '\\' with rfl | h
  · rfl
  · simp [scanBal]

theorem scanBal_cons2 (c c2 : Char) (rest st : List Char) (i : Bool) (h : c ≠ '\\') :
    scanBal (c :: c2 :: rest) st i =
      scanBal (c2 :: rest) (scanStep st i c).1 (scanStep st i c).2 := by
  rw [scanBal]
  exact fun _ _ hc _ => absurd hc h

theorem dangling_pair (c : Char) (rest : List Char) :
    dangling ('\\' :: c :: rest) = dangling rest := rfl

theorem dangling_one (c : Char) : dangling [c] = decide (c = '\\') := by
  rcases eq_or_ne c '\\' with rfl | h
  · rfl
  · simp [dangling, h]

theorem dangling_cons2 (c c2 : Char) (rest : List Char) (h : c ≠ '\\') :
    dangling (c :: c2 :: rest) = dangling (c2 :: rest) := by
  rw [dangling]
  all_goals intros
  all_goals simp_all

theorem pass1_nil (st : List Char) (i : Bool) : pass1 [] st i = ([], st, i) := rfl

theorem pass1_pair (c : Char) (rest st : List Char) (i : Bool) :
    pass1 ('\\' :: c :: rest) st i =
      (['\\', c] :: (pass1 rest st i).1, (pass1 rest st i).2) := rfl

theorem pass1_one (c : Char) (st : List Char) (i : Bool) :
    pass1 [c] st i = ([[c]], scanStep st i c) := by
  rcases eq_or_ne c '\\' with rfl | h
  · rfl
  · simp [pass1, pass1_nil]

theorem pass1_cons2 (c c2 : Char) (rest st : List Char) (i : Bool) (h : c ≠ '\\') :
    pass1 (c :: c2 :: rest) st i =
      ([c] :: (pass1 (c2 :: rest) (scanStep st i c).1 (scanStep st i c).2).1,
        (pass1 (c2 :: rest) (scanStep st i c).1 (scanStep st i c).2).2) := by
  rw [pass1]
  exact fun _ _ hc _ => absurd hc h

theorem scanStep_snd (st : List Char) (i : Bool) (c : Char) :
    (scanStep st i c).2 = if c = '"' then !i else i := by
  unfold scanStep
  dsimp only
  repeat' split
  all_goals rfl

/-! ### Structural lemmas about the balancing scan -/

/-- The state part of the first pass is the balancing scan. -/
theorem pass1_snd (s : List Char) : ∀ (st : List Char) (i : Bool),
    (pass1 s st i).2 = scanBal s st i := by
  induction s using twoStepInduction with
  | h0 => intro st i; rfl
  | h1 c => intro st i; rw [pass1_one, scanBal_one]
  | h2 c c2 rest ih1 ih2 =>
      intro st i
      rcases eq_or_ne c '\\' with rfl | h
      · rw [pass1_pair, scanBal_pair]
        simpa using ih2 st i
      · rw [pass1_cons2 _ _ _ _ _ h, scanBal_cons2 _ _ _ _ _ h]
        simpa using ih1 (scanStep st i c).1 (scanStep st i c).2

/-- The elements produced by the first pass concatenate back to the
scanned text. -/
theorem pass1_flatten (s : List Char) : ∀ (st : List Char) (i : Bool),
    (pass1 s st i).1.flatten = s := by
  induction s using twoStepInduction with
  | h0 => intro st i; rfl
  | h1 c => intro st i; rw [pass1_one]; rfl
  | h2 c c2 rest ih1 ih2 =>
      intro st i
      rcases eq_or_ne c '\\' with rfl | h
      · rw [pass1_pair]; simpa using ih2 st i
      · rw [pass1_cons2 _ _ _ _ _ h]
        simpa using ih1 (scanStep st i c).1 (scanStep st i c).2

/-- The balancing scan is compositional across concatenation provided
the first part does not end inside an escape pair. -/
theorem scanBal_append (s : List Char) : ∀ (b st : List Char) (i : Bool),
    dangling s = false →
    scanBal (s ++ b) st i = scanBal b (scanBal s st i).1 (scanBal s st i).2 := by
  induction s using twoStepInduction with
  | h0 => intro b st i _; rfl
  | h1 c =>
      intro b st i hd
      rw [dangling_one] at hd
      have hc : c ≠ '\\' := by simpa using hd
      cases b with
      | nil => simp [scanBal_nil]
      | cons b1 bs =>
          rw [List.singleton_append, scanBal_cons2 _ _ _ _ _ hc, scanBal_one]
  | h2 c c2 rest ih1 ih2 =>
      intro b st i hd
      rcases eq_or_ne c '\\' with rfl | h
      · rw [dangling_pair] at hd
        rw [List.cons_append, List.cons_append, scanBal_pair, scanBal_pair]
        exact ih2 b st i hd
      · rw [dangling_cons2 _ _ _ h] at hd
        rw [List.cons_append, List.cons_append, scanBal_cons2 _ _ _ _ _ h,
          scanBal_cons2 _ _ _ _ _ h]
        exact ih1 b _ _ hd

/-- `dangling` is likewise compositional. -/
theorem dangling_append (s : List Char) : ∀ (b : List Char),
    dangling s = false → dangling (s ++ b) = dangling b := by
  induction s using twoStepInduction with
  | h0 => intro b _; rfl
  | h1 c =>
      intro b hd
      rw [dangling_one] at hd
      have hc : c ≠ '\\' := by simpa using hd
      cases b with
      | nil => rw [List.append_nil, dangling_one]; simp [dangling, hc]
      | cons b1 bs => rw [List.singleton_append, dangling_cons2 _ _ _ hc]
  | h2 c c2 rest ih1 ih2 =>
      intro b hd
      rcases eq_or_ne c '\\' with rfl | h
      · rw [dangling_pair] at hd
        rw [List.cons_append, List.cons_append, dangling_pair]
        exact ih2 b hd
      · rw [dangling_cons2 _ _ _ h] at hd
        rw [List.cons_append, List.cons_append, dangling_cons2 _ _ _ h]
        exact ih1 b hd

theorem dangling_of_no_backslash (s : List Char) :
    (∀ c ∈ s, c ≠ '\\') → dangling s = false := by
  induction s using twoStepInduction with
  | h0 => intro _; rfl
  | h1 c => intro h; rw [dangling_one]; simpa using h c (by simp)
  | h2 c c2 rest ih1 _ih2 =>
      intro h
      have hc : c ≠ '\\' := h c (by simp)
      rw [dangling_cons2 _ _ _ hc]
      exact ih1 fun x hx => h x (by simp [hx])

theorem dangling_of_getLast (s : List Char) :
    s.getLast? ≠ some '\\' → dangling s = false := by
  induction s using twoStepInduction with
  | h0 => intro _; rfl
  | h1 c =>
      intro h
      rw [dangling_one]
      simpa using fun hc : c = '\\' => h (by simp [hc])
  | h2 c c2 rest ih1 ih2 =>
      intro h
      have h2' : (c2 :: rest).getLast? ≠ some '\\' := by
        rwa [List.getLast?_cons_cons] at h
      rcases eq_or_ne c '\\' with rfl | hc
      · rw [dangling_pair]
        cases rest with
        | nil => rfl
        | cons r rs =>
            exact ih2 (by rwa [List.getLast?_cons_cons] at h2')
      · rw [dangling_cons2 _ _ _ hc]
        exact ih1 h2'

/-- When the input does not end in an unpaired backslash, no element of
the first pass's `result` list is a lone backslash. -/
theorem pass1_elems_ne (s : List Char) : ∀ (st : List Char) (i : Bool),
    dangling s = false → ∀ e ∈ (pass1 s st i).1, e ≠ ['\\'] := by
  induction s using twoStepInduction with
  | h0 => intro st i _ e he; rw [pass1_nil] at he; simp at he
  | h1 c =>
      intro st i hd e he
      rw [dangling_one] at hd
      have hc : c ≠ '\\' := by simpa using hd
      rw [pass1_one] at he
      simp only [List.mem_singleton] at he
      subst he
      simp [hc]
  | h2 c c2 rest ih1 ih2 =>
      intro st i hd e he
      rcases eq_or_ne c '\\' with rfl | h
      · rw [dangling_pair] at hd
        rw [pass1_pair] at he
        rcases List.mem_cons.mp he with rfl | hmem
        · simp
        · exact ih2 st i hd e hmem
      · rw [dangling_cons2 _ _ _ h] at hd
        rw [pass1_cons2 _ _ _ _ _ h] at he
        rcases List.mem_cons.mp he with rfl | hmem
        · simp [h]
        · exact ih1 _ _ hd e hmem

theorem xor_parity (i : Bool) (n : ℕ) :
    ((!i) ^^ decide (n % 2 = 1)) = (i ^^ decide ((1 + n) % 2 = 1)) := by
  rcases Nat.mod_two_eq_zero_or_one n with h | h <;>
    cases i <;> simp [Nat.add_mod, h]

/-- The `in_string` flag at the end of the first pass is the initial
flag xor-ed with the parity of the number of unescaped quotes seen. -/
theorem pass1_inStr (s : List Char) : ∀ (st : List Char) (i : Bool),
    (pass1 s st i).2.2
      = (i ^^ decide (countQuote (pass1 s st i).1 % 2 = 1)) := by
  induction s using twoStepInduction with
  | h0 => intro st i; simp [pass1_nil, countQuote]
  | h1 c =>
      intro st i
      rw [pass1_one]
      dsimp only
      rw [scanStep_snd]
      rcases eq_or_ne c '"' with rfl | hc
      · simp [countQuote]
      · simp [countQuote, hc]
  | h2 c c2 rest ih1 ih2 =>
      intro st i
      rcases eq_or_ne c '\\' with rfl | h
      · rw [pass1_pair]
        dsimp only
        have hq : countQuote (['\\', c2] :: (pass1 rest st i).1)
            = countQuote (pass1 rest st i).1 := by
          rw [countQuote]; simp
        rw [hq]
        exact ih2 st i
      · rw [pass1_cons2 _ _ _ _ _ h, scanStep_snd]
        dsimp only
        rw [countQuote]
        have ih := ih1 (scanStep st i c).1 (scanStep st i c).2
        rw [scanStep_snd] at ih
        rw [ih]
        rcases eq_or_ne c '"' with rfl | hc
        · have h1 : (if ['"'] = (['"'] : List Char) then 1 else 0) = 1 := by simp
          rw [h1, if_pos rfl]
          exact xor_parity i _
        · have h1 : (if [c] = (['"'] : List Char) then 1 else 0) = 0 := by simp [hc]
          rw [h1, if_neg hc, Nat.zero_add]

theorem countQuote_append (a b : List (List Char)) :
    countQuote (a ++ b) = countQuote a + countQuote b := by
  induction a with
  | nil => rw [List.nil_append, countQuote, Nat.zero_add]
  | cons e t ih => rw [List.cons_append, countQuote, countQuote, ih, Nat.add_assoc]

theorem countQuote_eq_zero (l : List (List Char)) :
    (∀ e ∈ l, e ≠ ['"']) → countQuote l = 0 := by
  induction l with
  | nil => intro _; rfl
  | cons e t ih =>
      intro h
      rw [countQuote, if_neg (h e (by simp)), Nat.zero_add]
      exact ih fun x hx => h x (by simp [hx])

/-- With no lone-backslash element present, the second pass counts
exactly the quote elements. -/
theorem pass2Count_eq (elems : List (List Char)) :
    ∀ prev, (∀ e ∈ elems, e ≠ ['\\']) → prev ≠ some ['\\'] →
    pass2Count elems prev = countQuote elems := by
  induction elems with
  | nil => intro prev _ _; rfl
  | cons e rest ih =>
      intro prev hne hprev
      rw [pass2Count, countQuote]
      have h1 : (if e = ['"'] ∧ prev ≠ some ['\\'] then 1 else 0)
          = (if e = ['"'] then 1 else 0) := by simp [hprev]
      rw [h1, ih (some e) (fun x hx => hne x (by simp [hx]))
        (by simpa using hne e (by simp))]

/-- After one step the stack is unchanged, pushed (with an opening
bracket), or popped. -/
theorem scanStep_fst (st : List Char) (i : Bool) (c : Char) :
    (scanStep st i c).1 = st
      ∨ ((c = '{' ∨ c = '[') ∧ (scanStep st i c).1 = c :: st)
      ∨ (scanStep st i c).1 = st.tail := by
  unfold scanStep
  dsimp only
  repeat' split
  all_goals simp_all

/-- Everything the balancing scan pushes is an opening bracket. -/
theorem scanStep_stack (st : List Char) (i : Bool) (c : Char) :
    ∀ x ∈ (scanStep st i c).1, x ∈ st ∨ x = '{' ∨ x = '[' := by
  intro x hx
  rcases scanStep_fst st i c with h | ⟨hbr, h⟩ | h
  · rw [h] at hx; exact .inl hx
  · rw [h] at hx
    rcases List.mem_cons.mp hx with rfl | hmem
    · exact .inr hbr
    · exact .inl hmem
  · rw [h] at hx
    exact .inl (List.mem_of_mem_tail hx)

theorem scanBal_stack (s : List Char) : ∀ (st : List Char) (i : Bool) (x : Char),
    x ∈ (scanBal s st i).1 → x ∈ st ∨ x = '{' ∨ x = '[' := by
  induction s using twoStepInduction with
  | h0 => intro st i x hx; exact .inl hx
  | h1 c =>
      intro st i x hx
      rw [scanBal_one] at hx
      exact scanStep_stack st i c x hx
  | h2 c c2 rest ih1 ih2 =>
      intro st i x hx
      rcases eq_or_ne c '\\' with rfl | h
      · rw [scanBal_pair] at hx
        exact ih2 st i x hx
      · rw [scanBal_cons2 _ _ _ _ _ h] at hx
        rcases ih1 _ _ x hx with hmem | hbr
        · exact scanStep_stack st i c x hmem
        · exact .inr hbr

/-- Scanning the appended closers pops the whole stack. -/
theorem scanBal_closers (S : List Char) :
    (∀ x ∈ S, x = '{' ∨ x = '[') →
    scanBal (S.map closeOf) S false = ([], false) := by
  induction S with
  | nil => intro _; rfl
  | cons a T ih =>
      intro h
      have ha := h a (by simp)
      have hT := fun x hx => h x (List.mem_cons_of_mem _ hx)
      cases T with
      | nil => rcases ha with rfl | rfl <;> rfl
      | cons b T' =>
          have hne : closeOf a ≠ '\\' := by
            rcases ha with rfl | rfl <;> simp [closeOf]
          have hstep : scanStep (a :: b :: T') false (closeOf a) = (b :: T', false) := by
            rcases ha with rfl | rfl <;> rfl
          rw [List.map_cons, List.map_cons, scanBal_cons2 _ _ _ _ _ hne, hstep,
            ← List.map_cons]
          exact ih hT

/-- Stray closing brackets leave an empty stack empty (mismatched
closers are ignored by the scan). -/
theorem scanBal_strays (xs : List Char) :
    (∀ c ∈ xs, c = ']' ∨ c = '}') → scanBal xs [] false = ([], false) := by
  induction xs with
  | nil => intro _; rfl
  | cons a ys ih =>
      intro h
      have ha := h a (by simp)
      have hys := fun x hx => h x (List.mem_cons_of_mem _ hx)
      cases ys with
      | nil => rcases ha with rfl | rfl <;> rfl
      | cons b zs =>
          have hne : a ≠ '\\' := by rcases ha with rfl | rfl <;> decide
          have hstep : scanStep [] false a = ([], false) := by
            rcases ha with rfl | rfl <;> rfl
          rw [scanBal_cons2 _ _ _ _ _ hne, hstep]
          exact ih hys

theorem flatten_map_singleton (l : List Char) (g : Char → Char) :
    (l.map fun c => [g c]).flatten = l.map g := by
  induction l with
  | nil => rfl
  | cons a t ih => simp [ih]

/-! ### Lemmas about `fix_illegal_escapes` -/

theorem fix_pair (c : Char) (rest : List Char) :
    fix_illegal_escapes ('\\' :: c :: rest)
      = if allowedEscape c then '\\' :: fix_illegal_escapes (c :: rest)
        else '\\' :: '\\' :: c :: fix_illegal_escapes rest := rfl

theorem fix_cons (c : Char) (rest : List Char) (h : c ≠ '\\') :
    fix_illegal_escapes (c :: rest) = c :: fix_illegal_escapes rest := by
  rw [fix_illegal_escapes]
  all_goals intros
  all_goals simp_all

theorem fix_no_backslash (s : List Char) :
    (∀ x ∈ s, x ≠ '\\') → fix_illegal_escapes s = s := by
  induction s with
  | nil => intro _; rfl
  | cons c rest ih =>
      intro h
      rw [fix_cons _ _ (h c (by simp)), ih fun x hx => h x (by simp [hx])]

theorem fix_length (s : List Char) :
    s.length ≤ (fix_illegal_escapes s).length := by
  induction s using twoStepInduction with
  | h0 => simp [fix_illegal_escapes]
  | h1 c =>
      rcases eq_or_ne c '\\' with rfl | h
      · simp [fix_illegal_escapes]
      · rw [fix_cons _ _ h]; simp [fix_illegal_escapes]
  | h2 c c2 rest ih1 ih2 =>
      rcases eq_or_ne c '\\' with rfl | h
      · rw [fix_pair]
        split
        · have := ih1
          simp only [List.length_cons] at this ⊢
          omega
        · have := ih2
          simp only [List.length_cons] at this ⊢
          omega
      · rw [fix_cons _ _ h]
        have := ih1
        simp only [List.length_cons] at this ⊢
        omega

/-- A fixed point of the escape repair that starts with a backslash
pair must carry a legal escape character. -/
theorem fix_pair_inv (c : Char) (rest : List Char)
    (h : fix_illegal_escapes ('\\' :: c :: rest) = '\\' :: c :: rest) :
    allowedEscape c = true ∧ fix_illegal_escapes (c :: rest) = c :: rest := by
  rw [fix_pair] at h
  by_cases hc : allowedEscape c = true
  · rw [if_pos hc] at h
    refine ⟨hc, ?_⟩
    injection h
  · rw [if_neg hc] at h
    exfalso
    have hl := congrArg List.length h
    have := fix_length rest
    simp only [List.length_cons] at hl
    omega

/-- Appending backslash-free text to a fixed point of the escape repair
that does not end in a backslash yields another fixed point. -/
theorem fix_append (s : List Char) : ∀ (b : List Char),
    fix_illegal_escapes s = s → s.getLast? ≠ some '\\' →
    (∀ x ∈ b, x ≠ '\\') →
    fix_illegal_escapes (s ++ b) = s ++ b := by
  induction s using twoStepInduction with
  | h0 => intro b _ _ hb; simpa using fix_no_backslash b hb
  | h1 c =>
      intro b _ hlast hb
      have hc : c ≠ '\\' := by
        simpa using fun h : c = '\\' => hlast (by simp [h])
      rw [List.singleton_append, fix_cons _ _ hc, fix_no_backslash b hb]
  | h2 c c2 rest ih1 _ih2 =>
      intro b hfix hlast hb
      have hlast2 : (c2 :: rest).getLast? ≠ some '\\' := by
        rwa [List.getLast?_cons_cons] at hlast
      rcases eq_or_ne c '\\' with rfl | hc
      · obtain ⟨hall, hfix2⟩ := fix_pair_inv c2 rest hfix
        rw [List.cons_append, List.cons_append, fix_pair, if_pos hall,
          ← List.cons_append, ih1 b hfix2 hlast2 hb]
      · have hfix2 : fix_illegal_escapes (c2 :: rest) = c2 :: rest := by
          rw [fix_cons _ _ hc] at hfix
          injection hfix
        rw [List.cons_append, List.cons_append, fix_cons _ _ hc,
          ← List.cons_append, ih1 b hfix2 hlast2 hb]

/-! ### The decomposition of `structural_repair` -/

/-- The suffix appended by the third pass consists of closing brackets
only. -/
theorem extrasOf_brackets (rs : List Char) :
    ∀ c ∈ extrasOf rs, c = ']' ∨ c = '}' := by
  intro c hc
  unfold extrasOf at hc
  repeat' split at hc
  all_goals simp_all

/-- The third pass appends one of five fixed suffixes. -/
theorem extrasOf_cases (rs : List Char) :
    extrasOf rs = [] ∨ extrasOf rs = [']', '}'] ∨ extrasOf rs = [']', ']']
      ∨ extrasOf rs = ['}'] ∨ extrasOf rs = [']'] := by
  unfold extrasOf
  repeat' split
  all_goals simp

/-- When the string already ends with a character of the value-ending
class, the third pass appends nothing. -/
theorem extrasOf_of_class (rs : List Char) (c : Char)
    (hlast : rs.getLast? = some c) (hclass : lastCharClass c = true) :
    extrasOf rs = [] := by
  unfold extrasOf
  rw [hlast]
  simp [hclass]

/-- Under the two scan-state hypotheses the repaired text is the fixed
input, the matching closers, and the truncation suffix. -/
theorem repairChars_eq (s : List Char)
    (hin : (scanBal (fix_illegal_escapes s) [] false).2 = false)
    (hd : dangling (fix_illegal_escapes s) = false) :
    repairChars s =
      fix_illegal_escapes s
        ++ (scanBal (fix_illegal_escapes s) [] false).1.map closeOf
        ++ extrasOf (fix_illegal_escapes s
            ++ (scanBal (fix_illegal_escapes s) [] false).1.map closeOf) := by
  have hsnd := pass1_snd (fix_illegal_escapes s) [] false
  have h2 : (pass1 (fix_illegal_escapes s) [] false).2.2 = false := by
    rw [hsnd]; exact hin
  have hq : countQuote (pass1 (fix_illegal_escapes s) [] false).1 % 2 = 0 := by
    have hp := pass1_inStr (fix_illegal_escapes s) [] false
    rw [h2, Bool.false_xor] at hp
    have hne : ¬ countQuote (pass1 (fix_illegal_escapes s) [] false).1 % 2 = 1 := by
      intro hcontra
      rw [hcontra] at hp
      simp at hp
    omega
  have helne : ∀ e ∈ balancedElems s, e ≠ ['\\'] := by
    intro e he
    rcases List.mem_append.mp he with h | h
    · exact pass1_elems_ne (fix_illegal_escapes s) [] false hd e h
    · obtain ⟨c, _, rfl⟩ := List.mem_map.mp h
      unfold closeOf
      split <;> simp
  have hcq : countQuote (balancedElems s) % 2 = 0 := by
    unfold balancedElems
    rw [countQuote_append]
    have hzero : countQuote
        ((pass1 (fix_illegal_escapes s) [] false).2.1.map fun c => [closeOf c]) = 0 := by
      apply countQuote_eq_zero
      intro e he
      obtain ⟨c, _, rfl⟩ := List.mem_map.mp he
      unfold closeOf
      split <;> simp
    omega
  have hp2 : ¬ pass2Count (balancedElems s) none % 2 ≠ 0 := by
    rw [pass2Count_eq (balancedElems s) none helne (by simp)]
    omega
  have hre : repairedElems s = balancedElems s := by
    unfold repairedElems
    rw [if_neg hp2]
  have hflat : (balancedElems s).flatten
      = fix_illegal_escapes s
        ++ (scanBal (fix_illegal_escapes s) [] false).1.map closeOf := by
    unfold balancedElems
    rw [List.flatten_append, pass1_flatten, flatten_map_singleton, hsnd]
  unfold repairChars
  rw [hre, hflat]

/-- Appending bracket-only text to a string that repairs to itself
(under the three fixed-point hypotheses) yields a fixed point of the
repair. -/
theorem repair_fixpoint_of (x E : List Char)
    (hfix : fix_illegal_escapes x = x)
    (hscan : scanBal x [] false = ([], false))
    (hlast : x.getLast? ≠ some '\\')
    (hEbr : ∀ c ∈ E, c = ']' ∨ c = '}')
    (hEne : E ≠ []) :
    repairChars (x ++ E) = x ++ E := by
  have hd : dangling x = false := dangling_of_getLast x hlast
  have hnb : ∀ c ∈ E, c ≠ '\\' := fun c hc => by
    rcases hEbr c hc with rfl | rfl <;> decide
  have hfix_y : fix_illegal_escapes (x ++ E) = x ++ E :=
    fix_append x E hfix hlast hnb
  have hscan_y : scanBal (x ++ E) [] false = ([], false) := by
    rw [scanBal_append x E [] false hd, hscan]
    exact scanBal_strays E hEbr
  have hd_y : dangling (x ++ E) = false := by
    rw [dangling_append x E hd]
    exact dangling_of_no_backslash E hnb
  have hin_y : (scanBal (fix_illegal_escapes (x ++ E)) [] false).2 = false := by
    rw [hfix_y, hscan_y]
  have hd_y' : dangling (fix_illegal_escapes (x ++ E)) = false := by
    rw [hfix_y]; exact hd_y
  have h2 := repairChars_eq (x ++ E) hin_y hd_y'
  rw [hfix_y, hscan_y] at h2
  dsimp only at h2
  simp only [List.map_nil, List.append_nil] at h2
  obtain ⟨c, hcE, hclast⟩ : ∃ c, c ∈ E ∧ E.getLast? = some c :=
    ⟨E.getLast hEne, List.getLast_mem hEne,
      List.getLast?_eq_getLast_of_ne_nil hEne⟩
  have hclass : lastCharClass c = true := by
    rcases hEbr c hcE with rfl | rfl <;> rfl
  have hlastxE : (x ++ E).getLast? = some c := by
    rw [List.getLast?_append_of_ne_nil x hEne, hclast]
  rw [extrasOf_of_class _ c hlastxE hclass, List.append_nil] at h2
  exact h2

end ACMG

namespace ACMG

/-! ## Claim theorems about `structural_repair` (C6, C7, C10) -/

/-- C10: `structural_repair` applied to the empty string returns the
one-character string `"]"`: the trailing-truncation pass treats empty
input as truncated (the last-character pattern cannot match) and, since
`{` does not occur, appends a single `]`; in particular repair is a
total function on strings. -/
theorem C10_repair_empty : structural_repair "" = "]" := by decide

/-- C6 counterexample: for the input `{"`, the repaired output is
`{"}"`, and re-running the very balancing scan `structural_repair`
uses over that output ends with the bracket `{` still open — the
bracket-balance invariant claimed for all inputs fails here, because
the closing `}` was appended while the scan was still inside the
unterminated string. -/
theorem C6_counterexample :
    (scanBal (structural_repair "\x7b\"").data [] false).1 ≠ [] := by decide

/-- C6 (amended): for every input whose escape-fixed text is left
outside a string by the balancing scan and does not end in an unpaired
backslash, re-running the balancing scan over
`structural_repair`'s output ends with an empty stack. -/
theorem C6_repair_balanced (t : String)
    (hin : (scanBal (fix_illegal_escapes t.data) [] false).2 = false)
    (hd : dangling (fix_illegal_escapes t.data) = false) :
    (scanBal (structural_repair t).data [] false).1 = [] := by
  have hmem : ∀ x ∈ (scanBal (fix_illegal_escapes t.data) [] false).1,
      x = '{' ∨ x = '[' := by
    intro x hx
    rcases scanBal_stack (fix_illegal_escapes t.data) [] false x hx with h | h
    · simp at h
    · exact h
  have hclnb : ∀ c ∈ (scanBal (fix_illegal_escapes t.data) [] false).1.map closeOf,
      c ≠ '\\' := by
    intro c hc
    obtain ⟨y, _, rfl⟩ := List.mem_map.mp hc
    unfold closeOf
    split <;> simp
  have hdata : (structural_repair t).data = repairChars t.data := rfl
  rw [hdata, repairChars_eq t.data hin hd, List.append_assoc]
  rw [scanBal_append _ _ [] false hd, hin]
  rw [scanBal_append _ _ _ false (dangling_of_no_backslash _ hclnb)]
  rw [scanBal_closers _ hmem]
  show (scanBal (extrasOf _) [] false).1 = []
  rw [scanBal_strays _ (extrasOf_brackets _)]

/-- Witness for C6: the truncated object text `{"a": 1` satisfies both
hypotheses, and the repaired result `{"a": 1}` rescans to an empty
stack. -/
theorem C6_witness :
    (scanBal (fix_illegal_escapes ("\x7b\"a\": 1").data) [] false).2 = false
      ∧ dangling (fix_illegal_escapes ("\x7b\"a\": 1").data) = false
      ∧ (scanBal (structural_repair "\x7b\"a\": 1").data [] false).1 = [] :=
  ⟨by decide, by decide, C6_repair_balanced "\x7b\"a\": 1" (by decide) (by decide)⟩

/-- C7 counterexample: the two-character input `\x` has balanced
brackets and terminated strings (the scan ends with an empty stack,
outside any string), yet repair is not idempotent on it:
`repair("\x") = "\\x]"` while `repair("\\x]") = "\\\x]"`, because
`fix_illegal_escapes` doubles the backslash again on the second run. -/
theorem C7_counterexample :
    scanBal ("\\x").data [] false = ([], false)
      ∧ structural_repair (structural_repair "\\x") ≠ structural_repair "\\x" :=
  ⟨by decide, by decide⟩

/-- C7 (amended): repair is idempotent on every input that already has
balanced brackets and terminated strings (the balancing scan ends with
an empty stack, outside a string) **and** contains no illegal escape
(so the escape-fixing pass leaves it unchanged) **and** does not end in
a backslash. -/
theorem C7_repair_idempotent (x : String)
    (hfix : fix_illegal_escapes x.data = x.data)
    (hscan : scanBal x.data [] false = ([], false))
    (hlast : x.data.getLast? ≠ some '\\') :
    structural_repair (structural_repair x) = structural_repair x := by
  suffices h : repairChars (repairChars x.data) = repairChars x.data by
    exact congrArg String.mk h
  have hin : (scanBal (fix_illegal_escapes x.data) [] false).2 = false := by
    rw [hfix, hscan]
  have hd' : dangling (fix_illegal_escapes x.data) = false := by
    rw [hfix]
    exact dangling_of_getLast x.data hlast
  have h1 := repairChars_eq x.data hin hd'
  rw [hfix, hscan] at h1
  dsimp only at h1
  simp only [List.map_nil, List.append_nil] at h1
  rcases extrasOf_cases x.data with hE | hE | hE | hE | hE
  · rw [hE, List.append_nil] at h1
    rw [h1]
    exact h1
  all_goals rw [hE] at h1
  all_goals rw [h1]
  · exact repair_fixpoint_of x.data [']', '}'] hfix hscan hlast
      (by decide) (by decide)
  · exact repair_fixpoint_of x.data [']', ']'] hfix hscan hlast
      (by decide) (by decide)
  · exact repair_fixpoint_of x.data ['}'] hfix hscan hlast
      (by decide) (by decide)
  · exact repair_fixpoint_of x.data [']'] hfix hscan hlast
      (by decide) (by decide)

/-- Witness for C7: the well-formed object text `{"a": 1}` satisfies
the three hypotheses, and repair is idempotent on it. -/
theorem C7_witness :
    fix_illegal_escapes ("\x7b\"a\": 1\x7d").data = ("\x7b\"a\": 1\x7d").data
      ∧ scanBal ("\x7b\"a\": 1\x7d").data [] false = ([], false)
      ∧ ("\x7b\"a\": 1\x7d").data.getLast? ≠ some '\\'
      ∧ structural_repair (structural_repair "\x7b\"a\": 1\x7d")
          = structural_repair "\x7b\"a\": 1\x7d" :=
  ⟨by decide, by decide, by decide,
    C7_repair_idempotent "\x7b\"a\": 1\x7d" (by decide) (by decide) (by decide)⟩

/-! ## Claim theorems about `load_json` (C2, C9) -/

/-- C2: on a file whose whole text is the well-formed JSON array
`[{"a": 1}, {"b": 2}]`, the bare-object extraction grabs the invalid
span `{"a": 1}, {"b": 2}` (first `{` to last `}`), so a parser that
accepts exactly the original text never sees it: the code's fallback
re-parses the comment-stripped **extracted** candidate and `load_json`
fails, while the fallback the spec describes (re-running comment
stripping plus the parser on the *un-extracted* original text) would
succeed.  This contradicts the code's own comment `Last resort: parse
entire file content`. -/
theorem C2_fallback_uses_extracted :
    extract_json_from_content ("[\x7b\"a\": 1\x7d, \x7b\"b\": 2\x7d]").data
        ≠ ("[\x7b\"a\": 1\x7d, \x7b\"b\": 2\x7d]").data
      ∧ remove_json_comments ("[\x7b\"a\": 1\x7d, \x7b\"b\": 2\x7d]").data
        = ("[\x7b\"a\": 1\x7d, \x7b\"b\": 2\x7d]").data
      ∧ load_json_parse
          (acceptOnly ("[\x7b\"a\": 1\x7d, \x7b\"b\": 2\x7d]").data)
          ("[\x7b\"a\": 1\x7d, \x7b\"b\": 2\x7d]").data = none
      ∧ load_json_parse_spec
          (acceptOnly ("[\x7b\"a\": 1\x7d, \x7b\"b\": 2\x7d]").data)
          ("[\x7b\"a\": 1\x7d, \x7b\"b\": 2\x7d]").data = some () :=
  ⟨by decide, by decide, by decide, by decide⟩

/-- C9: an empty (0-byte) file decodes successfully to the empty string
under the very first encoding, yet `load_json` still raises
`All encoding attempts failed`, because `if not content:` treats the
empty string like `None`.  The claim that the error is raised only when
every encoding fails — hence never for a readable file — is right about
the intent (the error message says so) and wrong about the code. -/
theorem C9_empty_file_error :
    readContent (fun _ => some []) = some []
      ∧ load_json_readError (fun _ => some []) = true :=
  ⟨rfl, rfl⟩

/-! ## Claim theorems about `VariantAnalyzer` (C1, C5) -/

/-- The odds ratio of `calculate_oddpath` is exactly `1` for all
counts: numerator and denominator of `(p2*(1-p1))/((1-p2)*p1)` use the
identical probability `p1 = p2 = (P+1)/(P+B+2)`, which always lies
strictly between `0` and `1`. -/
theorem odds_path_val_eq_one (P B : ℕ) : odds_path_val P B = 1 := by
  have h2 : (0 : ℚ) < ((P + B : ℕ) : ℚ) + 2 := by positivity
  have hp0 : 0 < smoothedP P B := by
    unfold smoothedP
    positivity
  have hplt : smoothedP P B < 1 := by
    unfold smoothedP
    rw [div_lt_one h2]
    push_cast
    have : (0 : ℚ) ≤ (B : ℚ) := by positivity
    linarith
  unfold odds_path_val
  rw [mul_comm (smoothedP P B) (1 - smoothedP P B)]
  exact div_self (mul_ne_zero (sub_ne_zero.mpr hplt.ne') hp0.ne')

/-- C1: for every document whose summed pathogenic-control count `P`
plus benign-control count `B` is positive and whose number of
`Indeterminate` readout conclusions is at most `1` (and whose
experiment records are mappings, so the loop completes),
`calculate_oddpath` reports the odds ratio as computable and the
computed value is exactly `1`, because `p1` and `p2` are the same
expression `(P+1)/(P+B+2)`. -/
theorem C1_odds_path_is_one (data : JVal) (fields : List (String × JVal))
    (assays : List JVal) (objs : List (List (String × JVal)))
    (hdata : data = JVal.obj fields)
    (hEM : jGet fields "Experiment Method" = some (JVal.arr assays))
    (hobjs : assaysObjs assays = some objs)
    (hpos : 0 < (objs.map (fun a => pCountOf a "Validation controls P/LP")).sum
        + (objs.map (fun a => pCountOf a "Validation controls B/LB")).sum)
    (hind : (objs.map indetOf).sum ≤ 1) :
    calculate_oddpath data
      = .ok (true, 1, decide ((objs.map indetOf).sum = 0)) := by
  subst hdata
  unfold calculate_oddpath
  dsimp only
  rw [hEM]
  unfold calc_from_em
  dsimp only
  rw [hobjs]
  rcases Nat.le_one_iff_eq_zero_or_eq_one.mp hind with h | h <;>
    simp [h, hpos, odds_path_val_eq_one]

/-- Witness for C1: one assay with a numeric pathogenic count `3`, a
string benign count `"2"` and no readout gives `P + B = 5 > 0`,
`I = 0`, and an odds ratio of exactly `1`. -/
theorem C1_witness :
    calculate_oddpath (JVal.obj [("Experiment Method", JVal.arr
        [JVal.obj [("Validation controls P/LP",
            JVal.obj [("Validation controls P/LP", JVal.str "Yes"),
              ("Counts", JVal.num 3)]),
          ("Validation controls B/LB",
            JVal.obj [("Counts", JVal.str "2")])]])])
      = .ok (true, 1, true) :=
  C1_odds_path_is_one _ _ _
    [[("Validation controls P/LP",
        JVal.obj [("Validation controls P/LP", JVal.str "Yes"),
          ("Counts", JVal.num 3)]),
      ("Validation controls B/LB",
        JVal.obj [("Counts", JVal.str "2")])]]
    rfl rfl rfl (by decide) (by decide)

/-- C5: when no experiment record extracts an approved value equal to
`"Yes"`, `determine_evidence_strength` returns `No PS3/BS3` whatever
else — controls, replicates, validation indicators, counts — the
document contains: the first cascade level already decides the result. -/
theorem C5_no_approved_no_ps3bs3 (data : JVal) (fields : List (String × JVal))
    (assays : List JVal)
    (hdata : data = JVal.obj fields)
    (hEM : (jGet fields "Experiment Method").getD (JVal.arr []) = JVal.arr assays)
    (hobj : ∀ a ∈ assays, ∃ f, a = JVal.obj f)
    (hno : ∀ f, JVal.obj f ∈ assays → approvedYes f = false) :
    determine_evidence_strength data = .ok "No PS3/BS3" := by
  have hgo : ∀ (l : List JVal), (∀ a ∈ l, ∃ f, a = JVal.obj f) →
      (∀ f, JVal.obj f ∈ l → approvedYes f = false) →
      goApproved l = .ok false := by
    intro l
    induction l with
    | nil => intro _ _; rfl
    | cons a rest ih =>
        intro h1 h2
        obtain ⟨f, rfl⟩ := h1 a (by simp)
        have hf := h2 f (by simp)
        rw [goApproved, hf]
        simpa using ih (fun x hx => h1 x (by simp [hx]))
          (fun g hg => h2 g (by simp [hg]))
  subst hdata
  have happ : evaluate_assay_validity_approved (JVal.obj fields) = .ok false := by
    unfold evaluate_assay_validity_approved
    dsimp only
    rw [hEM]
    exact hgo assays hobj hno
  unfold determine_evidence_strength
  rw [happ]

/-- Witness for C5: a record whose approved indicator is `"No"` but
which carries validation controls with a large count still yields
`No PS3/BS3`. -/
theorem C5_witness :
    approvedYes [("Validation controls P/LP",
        JVal.obj [("Validation controls P/LP", JVal.str "Yes"),
          ("Counts", JVal.num 100)]),
      ("Approved assay", JVal.str "No")] = false
      ∧ determine_evidence_strength (JVal.obj [("Experiment Method", JVal.arr
          [JVal.obj [("Validation controls P/LP",
              JVal.obj [("Validation controls P/LP", JVal.str "Yes"),
                ("Counts", JVal.num 100)]),
            ("Approved assay", JVal.str "No")]])])
        = .ok "No PS3/BS3" :=
  ⟨rfl, C5_no_approved_no_ps3bs3 _ _ _ rfl rfl
    (by
      intro a ha
      rw [List.mem_singleton] at ha
      exact ⟨_, ha⟩)
    (by
      intro f hf
      rw [List.mem_singleton] at hf
      injection hf with h
      subst h
      rfl)⟩

/-! ### Lemmas about the metrics map (`defaultdict`) operations -/

theorem fmSet_keys (fm : FM) (p : String) (f : FieldMetrics → FieldMetrics) :
    fmKeys (fmSet fm p f)
      = if p ∈ fmKeys fm then fmKeys fm else fmKeys fm ++ [p] := by
  induction fm with
  | nil => simp [fmSet, fmKeys]
  | cons e rest ih =>
      obtain ⟨k, m⟩ := e
      rw [fmSet]
      rcases eq_or_ne k p with rfl | hk
      · simp [fmKeys]
      · have h1 : fmKeys ((k, m) :: fmSet rest p f) = k :: fmKeys (fmSet rest p f) := rfl
        have h2 : fmKeys ((k, m) :: rest) = k :: fmKeys rest := rfl
        rw [if_neg hk, h1, h2, ih]
        by_cases hp : p ∈ fmKeys rest
        · rw [if_pos hp, if_pos (by simp [hp])]
        · rw [if_neg hp, if_neg (by simp [hp, Ne.symm hk])]
          rfl

theorem fmSet_nodup (fm : FM) (p : String) (f : FieldMetrics → FieldMetrics)
    (h : (fmKeys fm).Nodup) : (fmKeys (fmSet fm p f)).Nodup := by
  rw [fmSet_keys]
  split
  · exact h
  · next hp => simp [List.nodup_append, h, hp]

theorem fmSet_mem_self (fm : FM) (p : String) (f : FieldMetrics → FieldMetrics) :
    p ∈ fmKeys (fmSet fm p f) := by
  rw [fmSet_keys]
  split
  · next hp => exact hp
  · simp

theorem fmSet_mem_mono (fm : FM) (p q : String) (f : FieldMetrics → FieldMetrics)
    (h : q ∈ fmKeys fm) : q ∈ fmKeys (fmSet fm p f) := by
  rw [fmSet_keys]
  split
  · exact h
  · simp [h]

theorem fmSet_find_self (fm : FM) (p : String) (f : FieldMetrics → FieldMetrics) :
    fmFind (fmSet fm p f) p = some (f ((fmFind fm p).getD {})) := by
  induction fm with
  | nil => simp [fmSet, fmFind]
  | cons e rest ih =>
      obtain ⟨k, m⟩ := e
      rw [fmSet]
      rcases eq_or_ne k p with rfl | hk
      · simp [fmFind]
      · rw [if_neg hk, fmFind, if_neg hk, ih, fmFind, if_neg hk]

theorem fmSet_find_other (fm : FM) (p q : String) (f : FieldMetrics → FieldMetrics)
    (h : q ≠ p) : fmFind (fmSet fm p f) q = fmFind fm q := by
  induction fm with
  | nil => simp [fmSet, fmFind, Ne.symm h]
  | cons e rest ih =>
      obtain ⟨k, m⟩ := e
      rw [fmSet]
      rcases eq_or_ne k p with rfl | hk
      · simp only [fmFind]
        rw [if_neg (Ne.symm h), if_neg (Ne.symm h)]
      · rw [if_neg hk]
        simp only [fmFind]
        rcases eq_or_ne k q with rfl | hkq
        · rw [if_pos rfl, if_pos rfl]
        · rw [if_neg hkq, if_neg hkq, ih]

/-- A left fold of keyed `fmSet` updates preserves key distinctness. -/
theorem foldl_fmSet_nodup {α : Type} (key : α → String)
    (upd : α → FieldMetrics → FieldMetrics) :
    ∀ (l : List α) (fm : FM), (fmKeys fm).Nodup →
      (fmKeys (l.foldl (fun acc x => fmSet acc (key x) (upd x)) fm)).Nodup := by
  intro l
  induction l with
  | nil => intro fm h; exact h
  | cons x xs ih =>
      intro fm h
      exact ih (fmSet fm (key x) (upd x)) (fmSet_nodup fm (key x) (upd x) h)

/-- After the fold, every key of the fold's list — and every key already
present — is present. -/
theorem foldl_fmSet_mem {α : Type} (key : α → String)
    (upd : α → FieldMetrics → FieldMetrics) :
    ∀ (l : List α) (fm : FM) (p : String),
      (p ∈ l.map key ∨ p ∈ fmKeys fm) →
      p ∈ fmKeys (l.foldl (fun acc x => fmSet acc (key x) (upd x)) fm) := by
  intro l
  induction l with
  | nil =>
      intro fm p h
      rcases h with h | h
      · simp at h
      · exact h
  | cons x xs ih =>
      intro fm p h
      apply ih (fmSet fm (key x) (upd x)) p
      rcases h with h | h
      · rw [List.map_cons, List.mem_cons] at h
        rcases h with rfl | h
        · exact Or.inr (fmSet_mem_self fm _ _)
        · exact Or.inl h
      · exact Or.inr (fmSet_mem_mono fm _ _ _ h)

/-- Folding keyed updates over pairwise-distinct keys: the entry of a
key in the list is its own update applied to its prior entry. -/
theorem foldl_fmSet_find_of_mem {α : Type} (key : α → String)
    (upd : α → FieldMetrics → FieldMetrics) :
    ∀ (l : List α) (fm : FM) (x : α), x ∈ l → (l.map key).Nodup →
      fmFind (l.foldl (fun acc y => fmSet acc (key y) (upd y)) fm) (key x)
        = some (upd x ((fmFind fm (key x)).getD {})) := by
  intro l
  induction l with
  | nil => intro fm x hx; exact absurd hx (by simp)
  | cons y ys ih =>
      intro fm x hx hnd
      rw [List.map_cons, List.nodup_cons] at hnd
      rcases List.mem_cons.mp hx with rfl | hx'
      · have hnot : ∀ z ∈ ys, key z ≠ key x := by
          intro z hz he
          exact hnd.1 (he ▸ List.mem_map_of_mem key hz)
        have hstable : ∀ (fm' : FM) (l' : List α), (∀ z ∈ l', key z ≠ key x) →
            fmFind (l'.foldl (fun acc z => fmSet acc (key z) (upd z)) fm') (key x)
              = fmFind fm' (key x) := by
          intro fm' l'
          induction l' generalizing fm' with
          | nil => intro _; rfl
          | cons z zs ih2 =>
              intro hz
              rw [List.foldl_cons, ih2 _ (fun w hw => hz w (by simp [hw])),
                fmSet_find_other _ _ _ _ (Ne.symm (hz z (by simp)))]
        rw [List.foldl_cons, hstable _ ys hnot, fmSet_find_self]
      · have hne : key x ≠ key y := by
          intro he
          exact hnd.1 (he ▸ List.mem_map_of_mem key hx')
        rw [List.foldl_cons, ih _ x hx' hnd.2, fmSet_find_other _ _ _ _ hne]

/-- `assocStr` hits are members of the table. -/
theorem assocStr_mem (l : List (String × String)) (p g : String)
    (h : assocStr l p = some g) : (p, g) ∈ l := by
  induction l with
  | nil => exact absurd h (by simp [assocStr])
  | cons kv rest ih =>
      obtain ⟨k, v⟩ := kv
      rw [assocStr] at h
      split at h
      · next hk =>
          injection h with h
          subst hk
          subst h
          simp
      · exact List.mem_cons_of_mem _ (ih h)

/-! ### The traversal only ever touches the map through `fmSet` -/

mutual
theorem traverseNode_nodup :
    ∀ (cur cmp : JVal) (is_std : Bool) (path : List String) (fm : FM),
      (fmKeys fm).Nodup → (fmKeys (traverseNode cur cmp is_std path fm)).Nodup
  | JVal.obj fields, cmp, is_std, path, fm, h => by
      rw [traverseNode]
      exact traverseFields_nodup fields cmp is_std path fm h
  | JVal.arr xs, cmp, is_std, path, fm, h => by
      rw [traverseNode]
      exact traverseList_nodup xs cmp is_std path 0 fm h
  | JVal.null, cmp, is_std, path, fm, h => by
      rw [traverseNode]
      · cases is_std <;> exact fmSet_nodup fm _ _ h
      all_goals exact fun _ hc => JVal.noConfusion hc
  | JVal.str s, cmp, is_std, path, fm, h => by
      rw [traverseNode]
      · cases is_std <;> exact fmSet_nodup fm _ _ h
      all_goals exact fun _ hc => JVal.noConfusion hc
  | JVal.num n, cmp, is_std, path, fm, h => by
      rw [traverseNode]
      · cases is_std <;> exact fmSet_nodup fm _ _ h
      all_goals exact fun _ hc => JVal.noConfusion hc
  | JVal.bool b, cmp, is_std, path, fm, h => by
      rw [traverseNode]
      · cases is_std <;> exact fmSet_nodup fm _ _ h
      all_goals exact fun _ hc => JVal.noConfusion hc

theorem traverseFields_nodup :
    ∀ (fields : List (String × JVal)) (cmp : JVal) (is_std : Bool)
      (path : List String) (fm : FM),
      (fmKeys fm).Nodup → (fmKeys (traverseFields fields cmp is_std path fm)).Nodup
  | [], cmp, is_std, path, fm, h => by
      rw [traverseFields]
      exact h
  | (k, v) :: rest, cmp, is_std, path, fm, h => by
      rw [traverseFields]
      exact traverseFields_nodup rest cmp is_std path _
        (traverseNode_nodup v _ is_std (path ++ [k]) fm h)

theorem traverseList_nodup :
    ∀ (xs : List JVal) (cmp : JVal) (is_std : Bool) (path : List String)
      (idx : Nat) (fm : FM),
      (fmKeys fm).Nodup → (fmKeys (traverseList xs cmp is_std path idx fm)).Nodup
  | [], cmp, is_std, path, idx, fm, h => by
      rw [traverseList]
      exact h
  | x :: rest, cmp, is_std, path, idx, fm, h => by
      rw [traverseList]
      exact traverseList_nodup rest cmp is_std path (idx + 1) _
        (traverseNode_nodup x _ is_std path fm h)
end

/-! ## Claim theorems about `Step1_DataComparator` (C3, C4, C8) -/

/-- C3 counterexample: at a non-boolean, non-grouped exact-match path
with recorded reference values `["ab"]`, the candidate `a-bc`
normalizes to `abc`, which equals no recorded value, yet the leaf is
counted correct (and contributes no false assertion): the code uses
mutual substring containment, not equality. -/
theorem C3_counterexample :
    cleanValue (pyStr (JVal.str "a-bc")) = "abc"
      ∧ "abc" ∉ ({ std_values := ["ab"], std_count := 1 } : FieldMetrics).std_values
      ∧ (fmFind (process_leaf_node JVal.null (JVal.str "a-bc") false
            ["Described Disease", "Described Disease"]
            [("Described Disease.Described Disease",
              { std_values := ["ab"], std_count := 1 })])
          "Described Disease.Described Disease").map
            (fun m => (m.correct, m.false_assert)) = some (1, 0) :=
  ⟨by decide, by decide, by decide⟩

/-- C3 (amended): for a non-boolean, non-grouped, non-skip exact-match
path and a candidate that is not an `N.D.` marker, the leaf is counted
correct iff its normalized value and some previously recorded reference
normalized value are related by substring containment (in either
direction); otherwise it is counted as exactly one false assertion.  In
both cases the candidate's normalized value is recorded and the model
count grows by one. -/
theorem C3_exact_counted_by_containment (m : FieldMetrics)
    (stdVal modelVal : JVal) (p : String)
    (hex : p ∈ EXACT_MATCH_FIELDS) (hnb : p ∉ BOOLEAN_FIELDS)
    (hng : assocStr FIELD_GROUPS p = none) (hns : p ∉ SKIP_FIELDS)
    (hnd : ndMatch (modelStrOf modelVal) = false) :
    leafChange stdVal modelVal false p m
      = if exactContainMatch m.std_values (modelCleanOf modelVal) then
          { m with
            model_values := m.model_values ++ [modelCleanOf modelVal]
            model_count := m.model_count + 1
            correct := m.correct + 1 }
        else
          { m with
            model_values := m.model_values ++ [modelCleanOf modelVal]
            model_count := m.model_count + 1
            false_assert := m.false_assert + 1 } := by
  unfold leafChange
  rw [hnd]
  simp only [Bool.not_false, Bool.true_and, Bool.false_eq_true, if_false,
    if_neg hns, if_neg hnb, if_pos hex, hng, Option.isSome_none,
    decide_eq_false hnb, Bool.false_or, Bool.or_self]

/-- Witness for C3: the candidate `A.BC` at the described-disease path
with recorded values `["xabcx"]` is contained in a recorded value and
is counted correct. -/
theorem C3_witness :
    ("Described Disease.Described Disease" ∈ EXACT_MATCH_FIELDS)
      ∧ leafChange JVal.null (JVal.str "A.BC") false
          "Described Disease.Described Disease" { std_values := ["xabcx"] }
        = { std_values := ["xabcx"], model_values := ["abc"],
            model_count := 1, correct := 1 } :=
  ⟨by decide,
    (C3_exact_counted_by_containment { std_values := ["xabcx"] }
      JVal.null (JVal.str "A.BC") "Described Disease.Described Disease"
      (by decide) (by decide) (by decide) (by decide) (by decide)).trans
      (by decide)⟩

/-- C4 counterexample: `Described Disease.MONDO` is an exact-match
policy path, but comparing two empty documents leaves it without any
`field_metrics` entry — the lazily created `defaultdict` only ever
holds visited paths plus the group and omission fields. -/
theorem C4_counterexample :
    ("Described Disease.MONDO" ∈ EXACT_MATCH_FIELDS)
      ∧ fmFind (compare (JVal.obj []) (JVal.obj [])).field_metrics
          "Described Disease.MONDO" = none :=
  ⟨by decide, by decide⟩

/-- C4 (amended): the guaranteed part of the invariant — every path of
the `FIELD_GROUPS` table and every `OMISSION_FIELDS` path receives
exactly one `field_metrics` entry in every comparison run, even when it
occurs in neither document (`_process_field_groups` writes all group
members and `_calculate_metrics`' final generator touches every
omission field). -/
theorem C4_group_omission_entry (std model : JVal) (p : String)
    (hp : (assocStr FIELD_GROUPS p).isSome = true ∨ p ∈ OMISSION_FIELDS) :
    (fmKeys (compare std model).field_metrics).count p = 1 := by
  have hnodupB : (fmKeys (traverseNode model std false []
      (traverseNode std model true [] []))).Nodup :=
    traverseNode_nodup model std false [] _
      (traverseNode_nodup std model true [] [] (by simp [fmKeys]))
  have hfm : (compare std model).field_metrics
      = OMISSION_FIELDS.foldl (fun acc f => fmSet acc f id)
          (process_field_groups (traverseNode model std false []
            (traverseNode std model true [] []))) := rfl
  rw [hfm]
  have hnodupC : (fmKeys (process_field_groups (traverseNode model std false []
      (traverseNode std model true [] [])))).Nodup := by
    unfold process_field_groups
    exact foldl_fmSet_nodup (fun kv => kv.1)
      (fun kv m => { m with
        std_count := (validStdTuples (traverseNode model std false []
          (traverseNode std model true [] [])) kv.2).length
        model_count := (validModelTuples (traverseNode model std false []
          (traverseNode std model true [] [])) kv.2).length
        correct := groupCorrect (traverseNode model std false []
          (traverseNode std model true [] [])) kv.2
        false_assert := groupFalseAssert (traverseNode model std false []
          (traverseNode std model true [] [])) kv.2 })
      FIELD_GROUPS _ hnodupB
  apply List.count_eq_one_of_mem
  · exact foldl_fmSet_nodup (fun f => f) (fun _ => id) OMISSION_FIELDS _ hnodupC
  · apply foldl_fmSet_mem (fun f => f) (fun _ => id)
    rcases hp with hg | ho
    · right
      unfold process_field_groups
      apply foldl_fmSet_mem
      left
      obtain ⟨g, hg2⟩ := Option.isSome_iff_exists.mp hg
      exact List.mem_map_of_mem Prod.fst (assocStr_mem _ _ _ hg2)
    · left
      simpa using ho

/-- Witness for C4: the omission field `Experiment Method.Assay Method`
gets exactly one entry even when both documents are empty. -/
theorem C4_witness :
    ("Experiment Method.Assay Method" ∈ OMISSION_FIELDS)
      ∧ (fmKeys (compare (JVal.obj []) (JVal.obj [])).field_metrics).count
          "Experiment Method.Assay Method" = 1 :=
  ⟨by decide, C4_group_omission_entry _ _ _ (Or.inr (by decide))⟩

/-- The model-set/standard-set statistics of one field group under set
equality of the normalized tuples. -/
theorem groupStats_of_set_eq (fm : FM) (g : String)
    (hab : ∀ t ∈ validModelTuples fm g, t ∈ validStdTuples fm g)
    (hba : ∀ t ∈ validStdTuples fm g, t ∈ validModelTuples fm g) :
    groupCorrect fm g = (validStdTuples fm g).dedup.length
      ∧ groupFalseAssert fm g = 0 := by
  constructor
  · unfold groupCorrect
    have hlen : ((validModelTuples fm g).dedup.countP
        fun t => decide (t ∈ validStdTuples fm g))
        = (validModelTuples fm g).dedup.length := by
      rw [List.countP_eq_length]
      intro a ha
      exact decide_eq_true (hab a (List.mem_dedup.mp ha))
    rw [hlen]
    have hperm : (validModelTuples fm g).dedup.Perm (validStdTuples fm g).dedup := by
      rw [List.perm_ext_iff_of_nodup (List.nodup_dedup _) (List.nodup_dedup _)]
      intro a
      simp only [List.mem_dedup]
      exact ⟨fun h => hab a h, fun h => hba a h⟩
    exact hperm.length_eq
  · unfold groupFalseAssert
    rw [List.countP_eq_zero]
    intro a ha hcontra
    rw [decide_eq_true_eq] at hcontra
    exact hcontra.1 (hab a (List.mem_dedup.mp ha))

/-- The entry `_process_field_groups` leaves at a group-member path. -/
theorem process_field_groups_find (fm : FM) (p g : String)
    (hmem : (p, g) ∈ FIELD_GROUPS) :
    fmFind (process_field_groups fm) p
      = some { (fmFind fm p).getD {} with
          std_count := (validStdTuples fm g).length
          model_count := (validModelTuples fm g).length
          correct := groupCorrect fm g
          false_assert := groupFalseAssert fm g } := by
  unfold process_field_groups
  exact foldl_fmSet_find_of_mem (fun kv => kv.1)
    (fun kv m => { m with
      std_count := (validStdTuples fm kv.2).length
      model_count := (validModelTuples fm kv.2).length
      correct := groupCorrect fm kv.2
      false_assert := groupFalseAssert fm kv.2 })
    FIELD_GROUPS fm (p, g) hmem (by decide)

/-- C8: when the accumulated `(ref, alt, position)` lists of a field
group normalize to the same set of tuples on both sides (possibly in
different order, possibly with duplicates), the group's `correct` count
written to each member path equals the number of distinct tuples and
its `false_assert` count is `0`. -/
theorem C8_grouped_set_symmetry (fm : FM) (g p : String)
    (hg : assocStr FIELD_GROUPS p = some g)
    (hab : ∀ t ∈ validModelTuples fm g, t ∈ validStdTuples fm g)
    (hba : ∀ t ∈ validStdTuples fm g, t ∈ validModelTuples fm g) :
    (fmFind (process_field_groups fm) p).map (fun m => (m.correct, m.false_assert))
      = some ((validStdTuples fm g).dedup.length, 0) := by
  rw [process_field_groups_find fm p g (assocStr_mem _ _ _ hg)]
  obtain ⟨h1, h2⟩ := groupStats_of_set_eq fm g hab hba
  simp [h1, h2]

/-- Witness for C8: the fixture's two protein variants, spelled and
ordered differently on the two sides, give `correct = 2` and
`false_assert = 0` at the group's `ref` path. -/
theorem C8_witness :
    (∀ t ∈ validModelTuples proteinGroupExample "Protein Change",
        t ∈ validStdTuples proteinGroupExample "Protein Change")
      ∧ (∀ t ∈ validStdTuples proteinGroupExample "Protein Change",
          t ∈ validModelTuples proteinGroupExample "Protein Change")
      ∧ (fmFind (process_field_groups proteinGroupExample)
            "Variants Include.variants.Protein Change.ref").map
          (fun m => (m.correct, m.false_assert)) = some (2, 0) :=
  ⟨by decide, by decide,
    (C8_grouped_set_symmetry proteinGroupExample "Protein Change"
      "Variants Include.variants.Protein Change.ref"
      (by decide) (by decide) (by decide)).trans (by decide)⟩

end ACMG
